import Mathlib

/-! Content sniffing: `libsoup/soup-content-sniffer.c`.

A shallow embedding of the sniffer of `soup-content-sniffer.c` and theorems
about it.

* The sample buffer (`buffer->data`, `buffer->length`) is a `List Nat` of byte
  values; `resource[i]` is `buf_at resource i`, which is undefined
  (`Outcome.outOfBounds`) at and beyond `buffer->length`.
* The `mask` and `pattern` members of a table row are C string literals: the
  array holds the listed characters and one terminating NUL (`cstr_at`).
* Media types are `String`s; a `NULL` pointer is `none`.
* The platform oracle `sniff_gio` (`g_content_type_guess`) is outside the file:
  its answer for the message at hand is the parameter `gio_guess`.
* Plain `char` is signed on some targets and unsigned on others; the parameter
  `char_signed` says which.  It matters only where a `char` is compared with
  an `int` constant above `0x7F`.
-/

namespace SoupContentSniffer

/-! ## Results of running C code -/

/-- What running a piece of the C code yields: a value, a read outside an
array (undefined behaviour), or exhaustion of the iteration budget that the
embedding gives to an unbounded loop. -/
inductive Outcome (α : Type) where
  | ret (a : α)
  | outOfBounds
  | outOfFuel
  deriving DecidableEq, Repr

/-- Sequencing: a fault in the first computation is the fault of the whole. -/
def Outcome.bind {α β : Type} (x : Outcome α) (f : α → Outcome β) : Outcome β :=
  match x with
  | .ret a => f a
  | .outOfBounds => .outOfBounds
  | .outOfFuel => .outOfFuel

instance : Monad Outcome where
  pure := Outcome.ret
  bind := Outcome.bind

/-- The C operator `a && b` on computations: `b` is evaluated only when `a` is true. -/
def and_then (a b : Outcome Bool) : Outcome Bool :=
  Outcome.bind a (fun x => if x then b else Outcome.ret false)

/-- The C operator `a || b` on computations: `b` is evaluated only when `a` is false. -/
def or_else (a b : Outcome Bool) : Outcome Bool :=
  Outcome.bind a (fun x => if x then Outcome.ret true else b)

/-- Read `resource[i]` of the sample buffer. -/
def buf_at (resource : List Nat) (i : Nat) : Outcome Nat :=
  match resource.get? i with
  | some b => Outcome.ret b
  | none => Outcome.outOfBounds

/-- Read `s[i]` of a C string literal with characters `s`: index `s.length`
is the terminating NUL, anything beyond is outside the array. -/
def cstr_at (s : List Nat) (i : Nat) : Outcome Nat :=
  if i < s.length then Outcome.ret (s.getD i 0)
  else if i = s.length then Outcome.ret 0
  else Outcome.outOfBounds

/-- The test `resource[i] == k` for the byte `r = resource[i]` and an `int`
constant `k`: the `char` is promoted to `int`, so where plain `char` is signed
a byte of `0x80` or more is negative and equals no constant `k ≥ 0`. -/
def char_eq_int (char_signed : Bool) (r k : Nat) : Bool :=
  decide (r = k) && !(char_signed && decide (128 ≤ r))

/-! ## GLib string primitives -/

/-- GLib `g_ascii_tolower`. -/
def g_ascii_tolower (c : Char) : Char :=
  if 65 ≤ c.toNat ∧ c.toNat ≤ 90 then Char.ofNat (c.toNat + 32) else c

/-- GLib `g_ascii_strcasecmp (s1, s2) == 0`. -/
def g_ascii_strcasecmp_eq (s1 s2 : String) : Bool :=
  s1.data.map g_ascii_tolower == s2.data.map g_ascii_tolower

/-- GLib `g_ascii_strncasecmp (s1, s2, n) == 0`. -/
def g_ascii_strncasecmp_eq (s1 s2 : String) (n : Nat) : Bool :=
  (s1.data.take n).map g_ascii_tolower == (s2.data.take n).map g_ascii_tolower

/-- GLib `g_str_has_suffix`: `strlen` of both, then `strcmp` on the tail. -/
def g_str_has_suffix (str suffix : String) : Bool :=
  if str.data.length < suffix.data.length then false
  else str.data.drop (str.data.length - suffix.data.length) == suffix.data

/-- GLib `g_str_has_prefix`: `strncmp (str, prefix, strlen (prefix)) == 0`. -/
def g_str_has_prefix (str pre : String) : Bool :=
  str.data.take pre.data.length == pre.data

/-- GLib `g_str_equal`. -/
def g_str_equal (s1 s2 : String) : Bool :=
  s1 == s2

/-- The libc call `memcmp (s1, s2, n) == 0` on arrays `s1`, `s2`. -/
def memcmp_eq (s1 s2 : List Nat) (n : Nat) : Outcome Bool :=
  if n ≤ s1.length ∧ n ≤ s2.length then Outcome.ret (s1.take n == s2.take n)
  else Outcome.outOfBounds

/-! ## The tables -/

/-- The struct `SoupContentSnifferPattern`; `mask` and `pattern` hold the
characters of the string literal, without its terminating NUL. -/
structure SoupContentSnifferPattern where
  has_ws : Bool
  mask : List Nat
  pattern : List Nat
  pattern_length : Nat
  sniffed_type : String
  scriptable : Bool
  deriving DecidableEq, Repr

/-- The array `types_table`. -/
def types_table : List SoupContentSnifferPattern := [
  { has_ws := false,
    mask := [0xFF, 0xFF, 0xDF, 0xDF, 0xDF, 0xDF, 0xDF, 0xDF, 0xDF, 0xFF, 0xDF, 0xDF, 0xDF, 0xDF],
    pattern := [0x3C, 0x21, 0x44, 0x4F, 0x43, 0x54, 0x59, 0x50, 0x45, 0x20, 0x48, 0x54, 0x4D, 0x4C],
    pattern_length := 14,
    sniffed_type := "text/html",
    scriptable := true },
  { has_ws := true,
    mask := [0xFF, 0xFF, 0xDF, 0xDF, 0xDF, 0xDF],
    pattern := [0x20, 0x3C, 0x48, 0x54, 0x4D, 0x4C],
    pattern_length := 5,
    sniffed_type := "text/html",
    scriptable := true },
  { has_ws := true,
    mask := [0xFF, 0xFF, 0xDF, 0xDF, 0xDF, 0xDF],
    pattern := [0x20, 0x3C, 0x48, 0x45, 0x41, 0x44],
    pattern_length := 5,
    sniffed_type := "text/html",
    scriptable := true },
  { has_ws := true,
    mask := [0xFF, 0xFF, 0xDF, 0xDF, 0xDF, 0xDF, 0xDF, 0xDF],
    pattern := [0x20, 0x3C, 0x53, 0x43, 0x52, 0x49, 0x50, 0x54],
    pattern_length := 7,
    sniffed_type := "text/html",
    scriptable := true },
  { has_ws := false,
    mask := [0xFF, 0xFF, 0xFF, 0xFF, 0xFF],
    pattern := [0x25, 0x50, 0x44, 0x46, 0x2D],
    pattern_length := 5,
    sniffed_type := "application/pdf",
    scriptable := true },
  { has_ws := false,
    mask := [0xFF, 0xFF, 0xFF, 0xFF, 0xFF, 0xFF, 0xFF, 0xFF, 0xFF, 0xFF, 0xFF],
    pattern := [0x25, 0x21, 0x50, 0x53, 0x2D, 0x41, 0x64, 0x6F, 0x62, 0x65, 0x2D],
    pattern_length := 11,
    sniffed_type := "application/postscript",
    scriptable := false },
  { has_ws := false,
    mask := [0xFF, 0xFF, 0x00, 0x00],
    pattern := [0xFE, 0xFF, 0x00, 0x00],
    pattern_length := 4,
    sniffed_type := "text/plain",
    scriptable := false },
  { has_ws := false,
    mask := [0xFF, 0xFF, 0x00, 0x00],
    pattern := [0xFF, 0xFF, 0x00, 0x00],
    pattern_length := 4,
    sniffed_type := "text/plain",
    scriptable := false },
  { has_ws := false,
    mask := [0xFF, 0xFF, 0xFF, 0x00],
    pattern := [0xEF, 0xBB, 0xBF, 0x00],
    pattern_length := 4,
    sniffed_type := "text/plain",
    scriptable := false },
  { has_ws := false,
    mask := [0xFF, 0xFF, 0xFF, 0xFF, 0xFF, 0xFF],
    pattern := [0x47, 0x49, 0x46, 0x38, 0x37, 0x61],
    pattern_length := 6,
    sniffed_type := "image/gif",
    scriptable := false },
  { has_ws := false,
    mask := [0xFF, 0xFF, 0xFF, 0xFF, 0xFF, 0xFF],
    pattern := [0x47, 0x49, 0x46, 0x38, 0x39, 0x61],
    pattern_length := 6,
    sniffed_type := "image/gif",
    scriptable := false },
  { has_ws := false,
    mask := [0xFF, 0xFF, 0xFF, 0xFF, 0xFF, 0xFF, 0xFF, 0xFF],
    pattern := [0x89, 0x50, 0x4E, 0x47, 0x0D, 0x0A, 0x1A, 0x0A],
    pattern_length := 8,
    sniffed_type := "image/png",
    scriptable := false },
  { has_ws := false,
    mask := [0xFF, 0xFF, 0xFF],
    pattern := [0xFF, 0xD8, 0xFF],
    pattern_length := 3,
    sniffed_type := "image/jpeg",
    scriptable := false },
  { has_ws := false,
    mask := [0xFF, 0xFF],
    pattern := [0x42, 0x4D],
    pattern_length := 2,
    sniffed_type := "image/bmp",
    scriptable := false },
  { has_ws := false,
    mask := [0xFF, 0xFF, 0xFF, 0xFF],
    pattern := [0x00, 0x00, 0x01, 0x00],
    pattern_length := 4,
    sniffed_type := "image/vnd.microsoft.icon",
    scriptable := false } ]

/-- The array `byte_looks_binary`. -/
def byte_looks_binary : List Nat := [
  1, 1, 1, 1, 1, 1, 1, 1, 1, 0, 0, 1, 0, 0, 1, 1,
  1, 1, 1, 1, 1, 1, 1, 1, 1, 1, 1, 0, 1, 1, 1, 1,
  0, 0, 0, 0, 0, 0, 0, 0, 0, 0, 0, 0, 0, 0, 0, 0,
  0, 0, 0, 0, 0, 0, 0, 0, 0, 0, 0, 0, 0, 0, 0, 0,
  0, 0, 0, 0, 0, 0, 0, 0, 0, 0, 0, 0, 0, 0, 0, 0,
  0, 0, 0, 0, 0, 0, 0, 0, 0, 0, 0, 0, 0, 0, 0, 0,
  0, 0, 0, 0, 0, 0, 0, 0, 0, 0, 0, 0, 0, 0, 0, 0,
  0, 0, 0, 0, 0, 0, 0, 0, 0, 0, 0, 0, 0, 0, 0, 0,
  0, 0, 0, 0, 0, 0, 0, 0, 0, 0, 0, 0, 0, 0, 0, 0,
  0, 0, 0, 0, 0, 0, 0, 0, 0, 0, 0, 0, 0, 0, 0, 0,
  0, 0, 0, 0, 0, 0, 0, 0, 0, 0, 0, 0, 0, 0, 0, 0,
  0, 0, 0, 0, 0, 0, 0, 0, 0, 0, 0, 0, 0, 0, 0, 0,
  0, 0, 0, 0, 0, 0, 0, 0, 0, 0, 0, 0, 0, 0, 0, 0,
  0, 0, 0, 0, 0, 0, 0, 0, 0, 0, 0, 0, 0, 0, 0, 0,
  0, 0, 0, 0, 0, 0, 0, 0, 0, 0, 0, 0, 0, 0, 0, 0,
  0, 0, 0, 0, 0, 0, 0, 0, 0, 0, 0, 0, 0, 0, 0, 0 ]

/-- The test `byte_looks_binary[(unsigned char) r]` as a C truth value. -/
def looks_binary_byte (r : Nat) : Bool :=
  byte_looks_binary.getD (r % 256) 0 != 0

/-- The local `resource_length = MIN (512, buffer->length)`. -/
def resource_length (resource : List Nat) : Nat :=
  min 512 resource.length

/-! ## `sniff_unknown` -/

/-- The five "generic" white space bytes of the pattern matcher. -/
def is_generic_ws (r : Nat) : Bool :=
  r == 0x09 || r == 0x0A || r == 0x0C || r == 0x0D || r == 0x20

/-- The `while (index_stream < resource_length)` loop of a `has_ws` row, from
the state `(index_stream, index_pattern)`.  The result is `(skip_row,
index_pattern)` at loop exit.  Every iteration advances one of the two indices
and `index_pattern` cannot pass the end of the pattern array without a fault,
so `fuel` bounds the iterations. -/
def ws_row_loop (row : SoupContentSnifferPattern) (resource : List Nat) (rlen : Nat) :
    Nat → Nat → Nat → Outcome (Bool × Nat)
  | 0, _, _ => Outcome.outOfFuel
  | fuel + 1, index_stream, index_pattern =>
    if index_stream < rlen then
      Outcome.bind (cstr_at row.pattern index_pattern) fun p =>
      if p = 0x20 then
        Outcome.bind (buf_at resource index_stream) fun r =>
        if is_generic_ws r then ws_row_loop row resource rlen fuel (index_stream + 1) index_pattern
        else ws_row_loop row resource rlen fuel index_stream (index_pattern + 1)
      else
        Outcome.bind (cstr_at row.mask index_pattern) fun m =>
        Outcome.bind (buf_at resource index_stream) fun r =>
        if m &&& r ≠ p then Outcome.ret (true, index_pattern)
        else ws_row_loop row resource rlen fuel (index_stream + 1) (index_pattern + 1)
    else Outcome.ret (false, index_pattern)

/-- Iteration budget for `ws_row_loop`: at most `rlen` iterations advance
`index_stream`, at most `pattern.length + 2` advance `index_pattern` alone
before a read leaves the array, and one more call sees the loop exit. -/
def ws_row_fuel (row : SoupContentSnifferPattern) (rlen : Nat) : Nat :=
  rlen + row.pattern.length + 3

/-- The `for (j = 0; j < pattern_length; j++)` loop of an exact row from index
`j`, with `n = pattern_length - j` iterations left.  The result is `j` at loop
exit. -/
def exact_row_loop (row : SoupContentSnifferPattern) (resource : List Nat) :
    Nat → Nat → Outcome Nat
  | 0, j => Outcome.ret j
  | n + 1, j =>
    Outcome.bind (cstr_at row.mask j) fun m =>
    Outcome.bind (buf_at resource j) fun r =>
    Outcome.bind (cstr_at row.pattern j) fun p =>
    if m &&& r ≠ p then Outcome.ret j
    else exact_row_loop row resource n (j + 1)

/-- The first `for` loop of `sniff_unknown` over the rows still to visit:
`some t` when a row returns its `sniffed_type`, `none` when the loop runs to
its end. -/
def sniff_unknown_rows (resource : List Nat) (for_text_or_binary : Bool) :
    List SoupContentSnifferPattern → Outcome (Option String)
  | [] => Outcome.ret none
  | type_row :: rows =>
    if for_text_or_binary && type_row.scriptable then
      sniff_unknown_rows resource for_text_or_binary rows
    else if type_row.has_ws then
      Outcome.bind
        (ws_row_loop type_row resource (resource_length resource)
          (ws_row_fuel type_row (resource_length resource)) 0 0) fun st =>
      if st.1 then sniff_unknown_rows resource for_text_or_binary rows
      else if st.2 > type_row.pattern_length then Outcome.ret (some type_row.sniffed_type)
      else sniff_unknown_rows resource for_text_or_binary rows
    else
      if resource_length resource < type_row.pattern_length then
        sniff_unknown_rows resource for_text_or_binary rows
      else
        Outcome.bind (exact_row_loop type_row resource type_row.pattern_length 0) fun j =>
        if j = type_row.pattern_length then Outcome.ret (some type_row.sniffed_type)
        else sniff_unknown_rows resource for_text_or_binary rows

/-- The second loop of `sniff_unknown`: on the text-or-binary path a guess that
is, ignoring ASCII case, the `sniffed_type` of a scriptable row is dropped.  (For
a `NULL` guess `g_ascii_strcasecmp` returns 0 through its argument check and the
guess stays `NULL`.) -/
def filter_gio_guess (for_text_or_binary : Bool) (gio_guess : Option String) : Option String :=
  match gio_guess with
  | none => none
  | some g =>
    if for_text_or_binary &&
        types_table.any (fun type_row => g_ascii_strcasecmp_eq type_row.sniffed_type g && type_row.scriptable)
    then none else some g

/-- The function `sniff_unknown`; `gio_guess` is what `sniff_gio` returns. -/
def sniff_unknown (resource : List Nat) (gio_guess : Option String) (for_text_or_binary : Bool) :
    Outcome String :=
  Outcome.bind (sniff_unknown_rows resource for_text_or_binary types_table) fun hit =>
  match hit with
  | some t => Outcome.ret t
  | none =>
    match filter_gio_guess for_text_or_binary gio_guess with
    | some g => Outcome.ret g
    | none => Outcome.ret "application/octet-stream"

/-! ## `sniff_text_or_binary` -/

/-- The `for (i = 0; i < resource_length; i++)` loop of `sniff_text_or_binary`
from index `i`, with `n = resource_length - i` iterations left: the value of
`looks_binary` at loop exit. -/
def looks_binary_loop (resource : List Nat) : Nat → Nat → Outcome Bool
  | 0, _ => Outcome.ret false
  | n + 1, i =>
    Outcome.bind (buf_at resource i) fun r =>
    if looks_binary_byte r then Outcome.ret true
    else looks_binary_loop resource n (i + 1)

/-- The byte-order-mark test of `sniff_text_or_binary` on `resource[0..2]`. -/
def bom_test (char_signed : Bool) (resource : List Nat) : Outcome Bool :=
  or_else
    (and_then (Outcome.bind (buf_at resource 0) fun r => Outcome.ret (char_eq_int char_signed r 0xFE))
              (Outcome.bind (buf_at resource 1) fun r => Outcome.ret (char_eq_int char_signed r 0xFF)))
  (or_else
    (and_then (Outcome.bind (buf_at resource 0) fun r => Outcome.ret (char_eq_int char_signed r 0xFF))
              (Outcome.bind (buf_at resource 1) fun r => Outcome.ret (char_eq_int char_signed r 0xFE)))
    (and_then (Outcome.bind (buf_at resource 0) fun r => Outcome.ret (char_eq_int char_signed r 0xEF))
    (and_then (Outcome.bind (buf_at resource 1) fun r => Outcome.ret (char_eq_int char_signed r 0xBB))
              (Outcome.bind (buf_at resource 2) fun r => Outcome.ret (char_eq_int char_signed r 0xBF)))))

/-- The function `sniff_text_or_binary`. -/
def sniff_text_or_binary (char_signed : Bool) (resource : List Nat) (gio_guess : Option String) :
    Outcome String :=
  Outcome.bind
    (if resource_length resource ≥ 4 then bom_test char_signed resource else Outcome.ret false)
    fun bom =>
  if bom then Outcome.ret "text/plain"
  else
    Outcome.bind (looks_binary_loop resource (resource_length resource) 0) fun looks_binary =>
    if !looks_binary then Outcome.ret "text/plain"
    else sniff_unknown resource gio_guess true

/-! ## `sniff_images` -/

/-- The `for` loop of `sniff_images` over the rows still to visit. -/
def sniff_images_rows (resource : List Nat) (content_type : String) :
    List SoupContentSnifferPattern → Outcome String
  | [] => Outcome.ret content_type
  | type_row :: rows =>
    if resource_length resource < type_row.pattern_length then
      sniff_images_rows resource content_type rows
    else if ! g_str_has_prefix type_row.sniffed_type "image/" then
      sniff_images_rows resource content_type rows
    else
      Outcome.bind (memcmp_eq (type_row.pattern ++ [0]) resource type_row.pattern_length) fun eq =>
      if eq then Outcome.ret type_row.sniffed_type
      else sniff_images_rows resource content_type rows

/-- The function `sniff_images`. -/
def sniff_images (resource : List Nat) (content_type : String) : Outcome String :=
  sniff_images_rows resource content_type types_table

/-! ## `sniff_feed_or_html` -/

/-- The test `resource[i] == k` for a constant `k` below `0x80`. -/
def byte_is (resource : List Nat) (i k : Nat) : Outcome Bool :=
  Outcome.bind (buf_at resource i) fun r => Outcome.ret (r == k)

/-- The test `resource[i] != k` for a constant `k` below `0x80`. -/
def byte_is_not (resource : List Nat) (i k : Nat) : Outcome Bool :=
  Outcome.bind (buf_at resource i) fun r => Outcome.ret (r != k)

/-- The white space loop at `look_for_tag`: the value of `pos` at loop exit. -/
def skip_ws_loop (resource : List Nat) : Nat → Nat → Outcome Nat
  | 0, _ => Outcome.outOfFuel
  | fuel + 1, pos =>
    Outcome.bind
      (or_else (byte_is resource pos 0x09)
      (or_else (byte_is resource pos 0x20)
      (or_else (byte_is resource pos 0x0A) (byte_is resource pos 0x0D)))) fun ws =>
    if ws then skip_ws_loop resource fuel (pos + 1) else Outcome.ret pos

/-- The `while` loop of the comment branch: the value of `pos` at loop exit. -/
def comment_loop (resource : List Nat) : Nat → Nat → Outcome Nat
  | 0, _ => Outcome.outOfFuel
  | fuel + 1, pos =>
    Outcome.bind
      (and_then (byte_is_not resource pos 0x2D)
      (and_then (byte_is_not resource (pos + 1) 0x2D) (byte_is_not resource (pos + 2) 0x3E))) fun go =>
    if go then comment_loop resource fuel (pos + 1) else Outcome.ret pos

/-- The `do ... while` loop of the `!` branch, entered with `pos`: the value of
`pos` at loop exit. -/
def decl_loop (resource : List Nat) : Nat → Nat → Outcome Nat
  | 0, _ => Outcome.outOfFuel
  | fuel + 1, pos =>
    Outcome.bind (byte_is_not resource (pos + 1) 0x3E) fun go =>
    if go then decl_loop resource fuel (pos + 1) else Outcome.ret (pos + 1)

/-- The `do ... while` loop of the `?` branch, entered with `pos`: the value of
`pos` at loop exit. -/
def pi_loop (resource : List Nat) : Nat → Nat → Outcome Nat
  | 0, _ => Outcome.outOfFuel
  | fuel + 1, pos =>
    Outcome.bind
      (and_then (byte_is_not resource (pos + 1) 0x3F) (byte_is_not resource (pos + 2) 0x3E)) fun go =>
    if go then pi_loop resource fuel (pos + 1) else Outcome.ret (pos + 1)

/-- Iteration budget for the loops of `sniff_feed_or_html`: each iteration reads
`resource[pos]` or beyond and then advances `pos`, so there are at most
`buffer->length` iterations before a loop exits or a read leaves the buffer. -/
def scan_fuel (resource : List Nat) : Nat :=
  resource.length + 1

/-- The code of `sniff_feed_or_html` from the label `look_for_tag`, entered with
`pos`; every `goto look_for_tag` consumes one unit of `fuel`. -/
def look_for_tag (resource : List Nat) : Nat → Nat → Outcome String
  | 0, _ => Outcome.outOfFuel
  | fuel + 1, pos0 =>
    Outcome.bind (skip_ws_loop resource (scan_fuel resource) pos0) fun pos1 =>
    Outcome.bind (byte_is_not resource pos1 0x3C) fun not_lt =>
    if not_lt then Outcome.ret "text/html"
    else
      let pos := pos1 + 1
      Outcome.bind
        (or_else (byte_is resource pos 0x2D)
        (or_else (byte_is resource (pos + 1) 0x2D) (byte_is resource (pos + 2) 0x3E))) fun comment =>
      if comment then
        Outcome.bind (comment_loop resource (scan_fuel resource) (pos + 3)) fun pos2 =>
        look_for_tag resource fuel pos2
      else
        Outcome.bind (byte_is resource pos 0x21) fun bang =>
        if bang then
          Outcome.bind (decl_loop resource (scan_fuel resource) pos) fun pos2 =>
          look_for_tag resource fuel (pos2 + 1)
        else
          Outcome.bind (byte_is resource pos 0x3F) fun question =>
          if question then
            Outcome.bind (pi_loop resource (scan_fuel resource) pos) fun pos2 =>
            look_for_tag resource fuel (pos2 + 2)
          else
            Outcome.bind
              (and_then (byte_is resource pos 0x72)
              (and_then (byte_is resource (pos + 1) 0x73) (byte_is resource (pos + 2) 0x73))) fun rss =>
            if rss then Outcome.ret "application/rss+xml"
            else
              Outcome.bind
                (and_then (byte_is resource pos 0x66)
                (and_then (byte_is resource (pos + 1) 0x65)
                (and_then (byte_is resource (pos + 2) 0x65) (byte_is resource (pos + 3) 0x64)))) fun feed =>
              if feed then Outcome.ret "application/atom+xml"
              else Outcome.ret "text/html"

/-- The function `sniff_feed_or_html`. -/
def sniff_feed_or_html (char_signed : Bool) (resource : List Nat) : Outcome String :=
  Outcome.bind
    (and_then (Outcome.bind (buf_at resource 0) fun r => Outcome.ret (char_eq_int char_signed r 0xEF))
    (and_then (Outcome.bind (buf_at resource 1) fun r => Outcome.ret (char_eq_int char_signed r 0xBB))
              (Outcome.bind (buf_at resource 2) fun r => Outcome.ret (char_eq_int char_signed r 0xBF))))
    fun bom =>
  look_for_tag resource (scan_fuel resource) (if bom then 3 else 0)

/-! ## `sniff` -/

/-- The function `sniff`.  `content_type` is the declared type returned by
`soup_message_headers_get_content_type` (`none` for `NULL`) and
`content_type_with_params` the value of the `Content-Type` header, which
exists whenever the declared type does and is looked at in that case only. -/
def sniff (char_signed : Bool) (content_type : Option String) (content_type_with_params : String)
    (buffer : List Nat) (gio_guess : Option String) : Outcome String :=
  match content_type with
  | none => sniff_unknown buffer gio_guess false
  | some ct =>
    if g_ascii_strcasecmp_eq ct "unknown/unknown" ||
        g_ascii_strcasecmp_eq ct "application/unknown" ||
        g_ascii_strcasecmp_eq ct "*/*" then
      sniff_unknown buffer gio_guess false
    else if g_str_has_suffix ct "+xml" ||
        g_ascii_strcasecmp_eq ct "text/xml" ||
        g_ascii_strcasecmp_eq ct "application/xml" then
      Outcome.ret ct
    else if g_ascii_strncasecmp_eq ct "image/" 6 then
      sniff_images buffer ct
    else if g_str_equal content_type_with_params "text/plain" ||
        g_str_equal content_type_with_params "text/plain; charset=ISO-8859-1" ||
        g_str_equal content_type_with_params "text/plain; charset=iso-8859-1" ||
        g_str_equal content_type_with_params "text/plain; charset=UTF-8" then
      sniff_text_or_binary char_signed buffer gio_guess
    else if g_ascii_strcasecmp_eq ct "text/html" then
      sniff_feed_or_html char_signed buffer
    else
      Outcome.ret ct

/-! ## Vocabulary of the statements -/

/-- The bytes of an ASCII string. -/
def bytes (s : String) : List Nat :=
  s.data.map Char.toNat

/-- The four header values that select the text-or-binary path. -/
def plain_text_variants : List String :=
  ["text/plain", "text/plain; charset=ISO-8859-1", "text/plain; charset=iso-8859-1",
   "text/plain; charset=UTF-8"]

/-- Whether `t` is, ignoring ASCII case, the `sniffed_type` of a scriptable table row. -/
def is_scriptable_type (t : String) : Bool :=
  types_table.any (fun type_row => type_row.scriptable && g_ascii_strcasecmp_eq t type_row.sniffed_type)

/-! ## Vocabulary of the proofs -/

/-- Masked comparison of the start of a buffer with a whole pattern:
`(mask[i] & resource[i]) == pattern[i]` at every index `i` of the pattern. -/
def masked_eq : List Nat → List Nat → List Nat → Bool
  | [], [], _ => true
  | m :: ms, p :: ps, r :: rs => (m &&& r == p) && masked_eq ms ps rs
  | _, _, _ => false

/-- The first exact row, in table order, that is visited and whose masked
pattern matches the start of the buffer. -/
def first_exact_match (resource : List Nat) (for_text_or_binary : Bool) :
    List SoupContentSnifferPattern → Option String
  | [] => none
  | type_row :: rows =>
    if (for_text_or_binary && type_row.scriptable) || type_row.has_ws then
      first_exact_match resource for_text_or_binary rows
    else if masked_eq type_row.mask type_row.pattern resource then some type_row.sniffed_type
    else first_exact_match resource for_text_or_binary rows

/-- Shape of a table row: an exact row has `pattern_length` mask and pattern
bytes, at most 512; a white space row is scriptable. -/
def row_ok (type_row : SoupContentSnifferPattern) : Bool :=
  if type_row.has_ws then type_row.scriptable
  else type_row.mask.length == type_row.pattern_length &&
    type_row.pattern.length == type_row.pattern_length && type_row.pattern_length ≤ 512

/-- Whether the bytes `t` spell the ASCII text `s` up to the case of its letters. -/
def ascii_case_variant : List Nat → List Nat → Bool
  | [], [] => true
  | b :: bs, c :: cs =>
    (b == c || (0x41 ≤ c && c ≤ 0x5A && b == c + 32) || (0x61 ≤ c && c ≤ 0x7A && b + 32 == c)) &&
      ascii_case_variant bs cs
  | _, _ => false

/-- The Image Classifier in the words of the specification: the `sniffed_type`
of the first table rule, in table order, whose `sniffed_type` starts with
`image/` and whose pattern is a byte-for-byte prefix of the buffer; the
declared type when there is no such rule. -/
def image_classifier_spec (buffer : List Nat) (declared : String) : String :=
  match types_table.find?
      (fun rule => g_str_has_prefix rule.sniffed_type "image/" && rule.pattern.isPrefixOf buffer) with
  | some rule => rule.sniffed_type
  | none => declared

/-- The four white space bytes that the loop at `look_for_tag` skips. -/
def is_feed_ws (r : Nat) : Bool :=
  r == 0x09 || r == 0x20 || r == 0x0A || r == 0x0D

/-- Shape of a mask byte `m` over a pattern byte `p`: `0xFF` over a byte that
is not an ASCII letter, or `0xDF` over an upper-case ASCII letter. -/
def case_mask_ok (m p : Nat) : Bool :=
  (m == 0xFF && !(0x41 ≤ p && p ≤ 0x5A) && !(0x61 ≤ p && p ≤ 0x7A)) ||
    (m == 0xDF && 0x41 ≤ p && p ≤ 0x5A)

/-- Whether every mask byte has the shape `case_mask_ok` over its pattern byte. -/
def case_masks_ok : List Nat → List Nat → Bool
  | [], [] => true
  | m :: ms, p :: ps => case_mask_ok m p && case_masks_ok ms ps
  | _, _ => false

/-- Whether the dispatcher `sniff` sends the declared type and header value to
one of the two classifiers whose loops are not bounded by the arrays they
read: `sniff_unknown` with scriptable rows allowed (white space rows) or
`sniff_feed_or_html`. -/
def dispatches_to_scan (content_type : Option String) (content_type_with_params : String) : Bool :=
  match content_type with
  | none => true
  | some ct =>
    if g_ascii_strcasecmp_eq ct "unknown/unknown" ||
        g_ascii_strcasecmp_eq ct "application/unknown" ||
        g_ascii_strcasecmp_eq ct "*/*" then true
    else if g_str_has_suffix ct "+xml" ||
        g_ascii_strcasecmp_eq ct "text/xml" ||
        g_ascii_strcasecmp_eq ct "application/xml" then false
    else if g_ascii_strncasecmp_eq ct "image/" 6 then false
    else if g_str_equal content_type_with_params "text/plain" ||
        g_str_equal content_type_with_params "text/plain; charset=ISO-8859-1" ||
        g_str_equal content_type_with_params "text/plain; charset=iso-8859-1" ||
        g_str_equal content_type_with_params "text/plain; charset=UTF-8" then false
    else g_ascii_strcasecmp_eq ct "text/html"

/-- Whether the dispatcher `sniff` sends the declared type to `sniff_unknown`
with scriptable rows allowed. -/
def dispatches_to_unknown (content_type : Option String) : Bool :=
  match content_type with
  | none => true
  | some ct =>
    g_ascii_strcasecmp_eq ct "unknown/unknown" ||
      g_ascii_strcasecmp_eq ct "application/unknown" ||
      g_ascii_strcasecmp_eq ct "*/*"

/-- Shape of a white space row of the table: mask and pattern literals of the
same length, six characters or more, with the space of the pattern at index 0
only. -/
def ws_row_shape (type_row : SoupContentSnifferPattern) : Bool :=
  type_row.mask.length == type_row.pattern.length && decide (6 ≤ type_row.pattern.length) &&
    (List.range type_row.pattern.length).all
      (fun i => i == 0 || type_row.pattern.getD i 0 != 0x20)

/-! ## Basic facts about reads and sequencing -/

@[simp] theorem bind_ret {α β : Type} (a : α) (f : α → Outcome β) :
    Outcome.bind (Outcome.ret a) f = f a := rfl

@[simp] theorem bind_outOfBounds {α β : Type} (f : α → Outcome β) :
    Outcome.bind (Outcome.outOfBounds : Outcome α) f = Outcome.outOfBounds := rfl

@[simp] theorem bind_outOfFuel {α β : Type} (f : α → Outcome β) :
    Outcome.bind (Outcome.outOfFuel : Outcome α) f = Outcome.outOfFuel := rfl

@[simp] theorem buf_at_nil (i : Nat) : buf_at [] i = Outcome.outOfBounds := by
  simp [buf_at]

@[simp] theorem buf_at_cons_zero (b : Nat) (l : List Nat) : buf_at (b :: l) 0 = Outcome.ret b := by
  simp [buf_at]

@[simp] theorem buf_at_cons_succ (b : Nat) (l : List Nat) (i : Nat) :
    buf_at (b :: l) (i + 1) = buf_at l i := by
  simp [buf_at]

theorem and_then_ret (a b : Bool) :
    and_then (Outcome.ret a) (Outcome.ret b) = Outcome.ret (a && b) := by
  cases a <;> rfl

theorem or_else_ret (a b : Bool) :
    or_else (Outcome.ret a) (Outcome.ret b) = Outcome.ret (a || b) := by
  cases a <;> rfl

theorem buf_at_of_lt (l : List Nat) (i : Nat) (h : i < l.length) :
    buf_at l i = Outcome.ret (l.getD i 0) := by
  simp [buf_at, List.getD, List.getElem?_eq_getElem h]

theorem cstr_at_of_lt (s : List Nat) (i : Nat) (h : i < s.length) :
    cstr_at s i = Outcome.ret (s.getD i 0) := by
  simp [cstr_at, h]

theorem drop_eq_getD_cons (l : List Nat) (i : Nat) (h : i < l.length) :
    l.drop i = l.getD i 0 :: l.drop (i + 1) := by
  rw [List.drop_eq_getElem_cons h]
  simp [List.getD, List.getElem?_eq_getElem h]

theorem resource_length_le (resource : List Nat) : resource_length resource ≤ resource.length := by
  simp [resource_length]

theorem resource_length_cons (b : Nat) (l : List Nat) :
    ∃ k, resource_length (b :: l) = k + 1 := by
  refine ⟨min 511 l.length, ?_⟩
  simp only [resource_length, List.length_cons]
  omega

/-! ## Exact rows -/

theorem masked_eq_length : ∀ (mask pattern resource : List Nat),
    masked_eq mask pattern resource = true → pattern.length ≤ resource.length
  | [], [], _, _ => by simp
  | [], _ :: _, _, h => by simp [masked_eq] at h
  | _ :: _, [], _, h => by simp [masked_eq] at h
  | _ :: _, _ :: _, [], h => by simp [masked_eq] at h
  | _ :: ms, _ :: ps, _ :: rs, h => by
    simp only [masked_eq, Bool.and_eq_true] at h
    have := masked_eq_length ms ps rs h.2
    simp only [List.length_cons]
    omega

theorem exact_row_loop_spec (row : SoupContentSnifferPattern) (resource : List Nat) :
    ∀ n j, j + n = row.pattern.length → row.mask.length = row.pattern.length →
      j + n ≤ resource.length →
      ∃ j2, exact_row_loop row resource n j = Outcome.ret j2 ∧
        (j2 = j + n ↔ masked_eq (row.mask.drop j) (row.pattern.drop j) (resource.drop j) = true) := by
  intro n
  induction n with
  | zero =>
    intro j h1 h2 _
    refine ⟨j, rfl, ?_⟩
    have e1 : row.pattern.drop j = [] := List.drop_eq_nil_of_le (by omega)
    have e2 : row.mask.drop j = [] := List.drop_eq_nil_of_le (by omega)
    simp [e1, e2, masked_eq]
  | succ n ih =>
    intro j h1 h2 h3
    have hp : j < row.pattern.length := by omega
    have hm : j < row.mask.length := by omega
    have hr : j < resource.length := by omega
    rw [exact_row_loop, cstr_at_of_lt _ _ hm, buf_at_of_lt _ _ hr, cstr_at_of_lt _ _ hp]
    rw [drop_eq_getD_cons _ _ hp, drop_eq_getD_cons _ _ hm, drop_eq_getD_cons _ _ hr]
    simp only [bind_ret, masked_eq]
    generalize row.mask.getD j 0 = m
    generalize resource.getD j 0 = r
    generalize row.pattern.getD j 0 = p
    by_cases hne : m &&& r = p
    · obtain ⟨j2, e, hj⟩ := ih (j + 1) (by omega) h2 (by omega)
      refine ⟨j2, ?_, ?_⟩
      · simp [hne, e]
      · rw [show j + (n + 1) = j + 1 + n by omega, hj]; simp [hne]
    · refine ⟨j, ?_, ?_⟩
      · simp [hne]
      · simp [hne]

/-- An exact row that is visited returns its type exactly when its masked
pattern matches the start of the buffer; otherwise the table walk goes on. -/
theorem rows_exact_step (resource : List Nat) (ftb : Bool) (row : SoupContentSnifferPattern)
    (rows : List SoupContentSnifferPattern)
    (hskip : (ftb && row.scriptable) = false) (hws : row.has_ws = false)
    (hm : row.mask.length = row.pattern_length) (hp : row.pattern.length = row.pattern_length)
    (hl : row.pattern_length ≤ 512) :
    sniff_unknown_rows resource ftb (row :: rows) =
      if masked_eq row.mask row.pattern resource then Outcome.ret (some row.sniffed_type)
      else sniff_unknown_rows resource ftb rows := by
  rw [sniff_unknown_rows]
  simp only [hskip, hws, Bool.false_eq_true, if_false]
  by_cases hlen : resource_length resource < row.pattern_length
  · have hne : masked_eq row.mask row.pattern resource = false := by
      by_contra hc
      have := masked_eq_length _ _ _ (by simpa using hc)
      simp only [resource_length] at hlen
      omega
    simp [hlen, hne]
  · have hle := resource_length_le resource
    obtain ⟨j2, e, hj⟩ := exact_row_loop_spec row resource row.pattern_length 0
      (by omega) (by omega) (by omega)
    simp only [List.drop_zero, Nat.zero_add] at hj
    rw [if_neg hlen, e, bind_ret]
    by_cases hmatch : masked_eq row.mask row.pattern resource = true
    · rw [if_pos (hj.2 hmatch), if_pos hmatch]
    · rw [if_neg (fun h => hmatch (hj.1 h)), if_neg hmatch]

/-- A row that the text-or-binary path skips. -/
theorem rows_skip_step (resource : List Nat) (ftb : Bool) (row : SoupContentSnifferPattern)
    (rows : List SoupContentSnifferPattern) (hskip : (ftb && row.scriptable) = true) :
    sniff_unknown_rows resource ftb (row :: rows) = sniff_unknown_rows resource ftb rows := by
  rw [sniff_unknown_rows]
  simp [hskip]

/-- A white space row whose loop ends with `skip_row` set. -/
theorem rows_ws_reject_step (resource : List Nat) (ftb : Bool) (row : SoupContentSnifferPattern)
    (rows : List SoupContentSnifferPattern) (k : Nat)
    (hskip : (ftb && row.scriptable) = false) (hws : row.has_ws = true)
    (hrej : ws_row_loop row resource (resource_length resource)
      (ws_row_fuel row (resource_length resource)) 0 0 = Outcome.ret (true, k)) :
    sniff_unknown_rows resource ftb (row :: rows) = sniff_unknown_rows resource ftb rows := by
  rw [sniff_unknown_rows]
  simp [hskip, hws, hrej]

/-- When every white space row is skipped or rejected, the table walk is the
search for the first matching exact row. -/
theorem rows_eq_first_exact_match (resource : List Nat) (ftb : Bool) :
    ∀ rows : List SoupContentSnifferPattern,
      (∀ row ∈ rows, row_ok row = true) →
      (∀ row ∈ rows, row.has_ws = true → (ftb && row.scriptable) = false →
        ∃ k, ws_row_loop row resource (resource_length resource)
          (ws_row_fuel row (resource_length resource)) 0 0 = Outcome.ret (true, k)) →
      sniff_unknown_rows resource ftb rows = Outcome.ret (first_exact_match resource ftb rows)
  | [], _, _ => rfl
  | row :: rows, hok, hrej => by
    have ih := rows_eq_first_exact_match resource ftb rows
      (fun r hr => hok r (List.mem_cons_of_mem _ hr))
      (fun r hr => hrej r (List.mem_cons_of_mem _ hr))
    have hrow := hok row (List.mem_cons_self _ _)
    rw [first_exact_match]
    by_cases hskip : (ftb && row.scriptable) = true
    · rw [rows_skip_step _ _ _ _ hskip, ih]
      simp [hskip]
    · have hskip2 : (ftb && row.scriptable) = false := by simpa using hskip
      by_cases hws : row.has_ws = true
      · obtain ⟨k, hk⟩ := hrej row (List.mem_cons_self _ _) hws hskip2
        rw [rows_ws_reject_step _ _ _ _ k hskip2 hws hk, ih]
        simp [hws]
      · have hws2 : row.has_ws = false := by simpa using hws
        simp only [row_ok, hws2, Bool.false_eq_true, if_false, Bool.and_eq_true, beq_iff_eq,
          decide_eq_true_eq] at hrow
        rw [rows_exact_step _ _ _ _ hskip2 hws2 hrow.1.1 hrow.1.2 hrow.2, ih]
        simp only [hskip2, hws2, Bool.or_self, Bool.false_eq_true, if_false]
        split <;> rfl

theorem types_table_ok : ∀ row ∈ types_table, row_ok row = true := by
  decide

/-- On the text-or-binary path no white space row is visited. -/
theorem rows_text_or_binary (resource : List Nat) :
    sniff_unknown_rows resource true types_table =
      Outcome.ret (first_exact_match resource true types_table) := by
  apply rows_eq_first_exact_match _ _ _ types_table_ok
  intro row hrow hws hskip
  have h := types_table_ok row hrow
  simp [row_ok, hws] at h
  simp [h] at hskip

theorem types_table_ws_shape : ∀ row ∈ types_table, row.has_ws = true →
    cstr_at row.pattern 0 = Outcome.ret 0x20 ∧ cstr_at row.pattern 1 = Outcome.ret 0x3C ∧
      cstr_at row.mask 1 = Outcome.ret 0xFF := by
  decide

/-- A first byte that is neither white space nor `<` makes every white space
row of the table end with `skip_row` set at `index_pattern = 1`. -/
theorem ws_row_reject_first (r0 : Nat) (rest : List Nat) (h0 : is_generic_ws r0 = false)
    (h1 : 0xFF &&& r0 ≠ 0x3C) :
    ∀ row ∈ types_table, row.has_ws = true →
      ws_row_loop row (r0 :: rest) (resource_length (r0 :: rest))
        (ws_row_fuel row (resource_length (r0 :: rest))) 0 0 = Outcome.ret (true, 1) := by
  obtain ⟨k, hk⟩ := resource_length_cons r0 rest
  intro row hrow hws
  obtain ⟨e0, e1, e2⟩ := types_table_ws_shape row hrow hws
  rw [hk, ws_row_fuel,
    show k + 1 + row.pattern.length + 3 = (k + row.pattern.length + 2) + 1 + 1 by omega]
  rw [ws_row_loop, if_pos (by omega), e0, bind_ret, if_pos rfl, buf_at_cons_zero, bind_ret, h0]
  simp only [Bool.false_eq_true, if_false]
  rw [ws_row_loop, if_pos (by omega), e1, bind_ret, if_neg (by decide), e2, bind_ret,
    buf_at_cons_zero, bind_ret, if_pos h1]

/-- The table walk on a buffer whose first byte is neither white space nor `<`. -/
theorem rows_first_byte (r0 : Nat) (rest : List Nat) (ftb : Bool) (h0 : is_generic_ws r0 = false)
    (h1 : 0xFF &&& r0 ≠ 0x3C) :
    sniff_unknown_rows (r0 :: rest) ftb types_table =
      Outcome.ret (first_exact_match (r0 :: rest) ftb types_table) := by
  apply rows_eq_first_exact_match _ _ _ types_table_ok
  intro row hrow hws _
  exact ⟨1, ws_row_reject_first r0 rest h0 h1 row hrow hws⟩

/-! ## The text-or-binary path -/

theorem first_exact_match_mem (resource : List Nat) (ftb : Bool) (t : String) :
    ∀ rows : List SoupContentSnifferPattern, first_exact_match resource ftb rows = some t →
      ∃ row ∈ rows, (ftb && row.scriptable) = false ∧ row.has_ws = false ∧
        masked_eq row.mask row.pattern resource = true ∧ row.sniffed_type = t
  | [], h => by simp [first_exact_match] at h
  | row :: rows, h => by
    rw [first_exact_match] at h
    by_cases hc : ((ftb && row.scriptable) || row.has_ws) = true
    · rw [if_pos hc] at h
      obtain ⟨r, hr, hh⟩ := first_exact_match_mem resource ftb t rows h
      exact ⟨r, List.mem_cons_of_mem _ hr, hh⟩
    · rw [if_neg hc] at h
      simp only [Bool.or_eq_true, not_or, Bool.not_eq_true] at hc
      by_cases hm : masked_eq row.mask row.pattern resource = true
      · rw [if_pos hm] at h
        exact ⟨row, List.mem_cons_self _ _, hc.1, hc.2, hm, by simpa using h⟩
      · rw [if_neg hm] at h
        obtain ⟨r, hr, hh⟩ := first_exact_match_mem resource ftb t rows h
        exact ⟨r, List.mem_cons_of_mem _ hr, hh⟩

theorem nonscriptable_rows_safe : ∀ row ∈ types_table, row.scriptable = false →
    is_scriptable_type row.sniffed_type = false := by
  decide

theorem filter_gio_guess_safe (gio_guess : Option String) (g : String)
    (h : filter_gio_guess true gio_guess = some g) : is_scriptable_type g = false := by
  cases gio_guess with
  | none => simp [filter_gio_guess] at h
  | some g0 =>
    simp only [filter_gio_guess, Bool.true_and] at h
    split at h
    · simp at h
    · rename_i hn
      have hg : g0 = g := by simpa using h
      subst hg
      rw [Bool.not_eq_true] at hn
      rw [← hn, is_scriptable_type]
      congr 1
      funext row
      simp only [g_ascii_strcasecmp_eq]
      rw [Bool.and_comm]
      congr 1
      exact Bool.beq_comm

/-- On the text-or-binary path `sniff_unknown` returns, and never a scriptable type. -/
theorem sniff_unknown_text_or_binary_safe (resource : List Nat) (gio_guess : Option String) :
    ∃ t, sniff_unknown resource gio_guess true = Outcome.ret t ∧ is_scriptable_type t = false := by
  rw [sniff_unknown, rows_text_or_binary, bind_ret]
  cases hm : first_exact_match resource true types_table with
  | some t =>
    refine ⟨t, rfl, ?_⟩
    obtain ⟨row, hrow, hs, _, _, ht⟩ := first_exact_match_mem _ _ _ _ hm
    rw [← ht]
    exact nonscriptable_rows_safe row hrow (by simpa using hs)
  | none =>
    cases hg : filter_gio_guess true gio_guess with
    | some g => exact ⟨g, rfl, filter_gio_guess_safe _ _ hg⟩
    | none => exact ⟨"application/octet-stream", rfl, by decide⟩

theorem bom_test_total (char_signed : Bool) (resource : List Nat) (h : 3 ≤ resource.length) :
    ∃ b, bom_test char_signed resource = Outcome.ret b := by
  match resource, h with
  | a :: b :: c :: rest, _ =>
    simp only [bom_test, buf_at_cons_zero, buf_at_cons_succ, bind_ret, and_then_ret, or_else_ret]
    exact ⟨_, rfl⟩

theorem looks_binary_loop_spec (resource : List Nat) :
    ∀ n i, i + n ≤ resource.length →
      looks_binary_loop resource n i =
        Outcome.ret (((resource.drop i).take n).any looks_binary_byte)
  | 0, i, _ => by simp [looks_binary_loop]
  | n + 1, i, h => by
    have hi : i < resource.length := by omega
    rw [looks_binary_loop, buf_at_of_lt _ _ hi, bind_ret, drop_eq_getD_cons _ _ hi,
      List.take_succ_cons, List.any_cons]
    generalize resource.getD i 0 = r
    cases hr : looks_binary_byte r
    · simp only [Bool.false_eq_true, if_false, Bool.false_or]
      exact looks_binary_loop_spec resource n (i + 1) (by omega)
    · simp

/-- The dispatcher sends a declared `text/plain` with one of the four header
values to `sniff_text_or_binary`. -/
theorem sniff_text_plain (char_signed : Bool) (hdr : String) (buffer : List Nat)
    (gio_guess : Option String) (hhdr : hdr ∈ plain_text_variants) :
    sniff char_signed (some "text/plain") hdr buffer gio_guess =
      sniff_text_or_binary char_signed buffer gio_guess := by
  have h1 : g_ascii_strcasecmp_eq "text/plain" "unknown/unknown" = false := by decide
  have h2 : g_ascii_strcasecmp_eq "text/plain" "application/unknown" = false := by decide
  have h3 : g_ascii_strcasecmp_eq "text/plain" "*/*" = false := by decide
  have h4 : g_str_has_suffix "text/plain" "+xml" = false := by decide
  have h5 : g_ascii_strcasecmp_eq "text/plain" "text/xml" = false := by decide
  have h6 : g_ascii_strcasecmp_eq "text/plain" "application/xml" = false := by decide
  have h7 : g_ascii_strncasecmp_eq "text/plain" "image/" 6 = false := by decide
  have h8 : (g_str_equal hdr "text/plain" ||
        g_str_equal hdr "text/plain; charset=ISO-8859-1" ||
        g_str_equal hdr "text/plain; charset=iso-8859-1" ||
        g_str_equal hdr "text/plain; charset=UTF-8") = true := by
    simp only [plain_text_variants, List.mem_cons, List.mem_singleton, List.not_mem_nil,
      or_false] at hhdr
    rcases hhdr with h | h | h | h <;> subst h <;> decide
  simp only [sniff, h1, h2, h3, h4, h5, h6, h7, h8, Bool.or_self, Bool.false_eq_true, if_false,
    if_true]

/-- C1: with declared type `text/plain` and one of the four plain-text header
values, `sniff` returns a type, for every sample buffer and every oracle answer
(none included), and that type is never, ignoring ASCII case, the
`sniffed_type` of a scriptable table row. -/
theorem text_plain_never_scriptable (char_signed : Bool) (hdr : String) (buffer : List Nat)
    (gio_guess : Option String) (hhdr : hdr ∈ plain_text_variants) :
    ∃ t, sniff char_signed (some "text/plain") hdr buffer gio_guess = Outcome.ret t ∧
      is_scriptable_type t = false := by
  rw [sniff_text_plain _ _ _ _ hhdr, sniff_text_or_binary]
  have hbom : ∃ b, (if resource_length buffer ≥ 4 then bom_test char_signed buffer
      else Outcome.ret false) = Outcome.ret b := by
    by_cases h4 : resource_length buffer ≥ 4
    · rw [if_pos h4]
      exact bom_test_total _ _ (by have := resource_length_le buffer; omega)
    · rw [if_neg h4]; exact ⟨false, rfl⟩
  obtain ⟨b, hb⟩ := hbom
  rw [hb, bind_ret]
  cases b with
  | true => exact ⟨"text/plain", by simp, by decide⟩
  | false =>
    rw [looks_binary_loop_spec _ _ _ (by have := resource_length_le buffer; omega), bind_ret]
    simp only [Bool.false_eq_true, if_false]
    split
    · exact ⟨"text/plain", rfl, by decide⟩
    · exact sniff_unknown_text_or_binary_safe buffer gio_guess

theorem text_plain_never_scriptable_witness :
    "text/plain; charset=UTF-8" ∈ plain_text_variants ∧
    ∃ t, sniff true (some "text/plain") "text/plain; charset=UTF-8"
        (0 :: bytes "<html><script>") (some "TEXT/HTML") = Outcome.ret t ∧
      is_scriptable_type t = false :=
  ⟨by decide, text_plain_never_scriptable true _ _ _ (by decide)⟩

/-- C5: with declared type `text/plain` and one of the four plain-text header
values, a sample buffer none of whose first `min 512 length` bytes is flagged
binary-looking is classified `text/plain`, whatever lies beyond offset 512 and
whatever the oracle answers. -/
theorem printable_text_stays_text_plain (char_signed : Bool) (hdr : String) (buffer : List Nat)
    (gio_guess : Option String) (hhdr : hdr ∈ plain_text_variants)
    (htext : ∀ b ∈ buffer.take 512, looks_binary_byte b = false) :
    sniff char_signed (some "text/plain") hdr buffer gio_guess = Outcome.ret "text/plain" := by
  rw [sniff_text_plain _ _ _ _ hhdr, sniff_text_or_binary]
  have hbom : ∃ b, (if resource_length buffer ≥ 4 then bom_test char_signed buffer
      else Outcome.ret false) = Outcome.ret b := by
    by_cases h4 : resource_length buffer ≥ 4
    · rw [if_pos h4]
      exact bom_test_total _ _ (by have := resource_length_le buffer; omega)
    · rw [if_neg h4]; exact ⟨false, rfl⟩
  obtain ⟨b, hb⟩ := hbom
  rw [hb, bind_ret]
  cases b with
  | true => simp
  | false =>
    rw [looks_binary_loop_spec _ _ _ (by have := resource_length_le buffer; omega), bind_ret]
    have hany : ((buffer.drop 0).take (resource_length buffer)).any looks_binary_byte = false := by
      rw [List.drop_zero, List.any_eq_false]
      intro x hx
      have hx2 : x ∈ buffer.take 512 := by
        have hsub : buffer.take (resource_length buffer) = buffer.take 512 := by
          simp only [resource_length]
          rw [List.take_eq_take]
          simp
        rw [← hsub]; exact hx
      simp [htext x hx2]
    rw [hany]
    simp

theorem printable_text_stays_text_plain_witness :
    "text/plain; charset=iso-8859-1" ∈ plain_text_variants ∧
    (∀ b ∈ (bytes "<html><script>alert(1)</script>").take 512, looks_binary_byte b = false) ∧
    sniff false (some "text/plain") "text/plain; charset=iso-8859-1"
      (bytes "<html><script>alert(1)</script>") (some "text/html") = Outcome.ret "text/plain" :=
  ⟨by decide, by decide, printable_text_stays_text_plain false _ _ _ (by decide) (by decide)⟩

/-- C6: with declared type `text/plain` and one of the four plain-text header
values, a sample buffer that begins with the 8-byte PNG signature is classified
`image/png`, whatever bytes follow and whatever the oracle answers. -/
theorem text_plain_png_is_image_png (char_signed : Bool) (hdr : String) (rest : List Nat)
    (gio_guess : Option String) (hhdr : hdr ∈ plain_text_variants) :
    sniff char_signed (some "text/plain") hdr
      ([0x89, 0x50, 0x4E, 0x47, 0x0D, 0x0A, 0x1A, 0x0A] ++ rest) gio_guess =
      Outcome.ret "image/png" := by
  rw [sniff_text_plain _ _ _ _ hhdr, sniff_text_or_binary]
  have hlen : ∃ k, resource_length ([0x89, 0x50, 0x4E, 0x47, 0x0D, 0x0A, 0x1A, 0x0A] ++ rest)
      = k + 8 := by
    refine ⟨min 504 rest.length, ?_⟩
    simp only [resource_length, List.length_append, List.length_cons, List.length_nil]
    omega
  obtain ⟨k, hk⟩ := hlen
  rw [hk, if_pos (by omega)]
  simp only [List.cons_append, List.nil_append]
  have hbom : bom_test char_signed (0x89 :: 0x50 :: 0x4E :: 0x47 :: 0x0D :: 0x0A :: 0x1A :: 0x0A :: rest)
      = Outcome.ret false := by
    cases char_signed <;> rfl
  rw [hbom, bind_ret]
  have hloop : looks_binary_loop (0x89 :: 0x50 :: 0x4E :: 0x47 :: 0x0D :: 0x0A :: 0x1A :: 0x0A :: rest)
      (k + 8) 0 = Outcome.ret true := by
    rfl
  rw [hloop, bind_ret]
  simp only [Bool.false_eq_true, if_false, Bool.not_true]
  rw [sniff_unknown, rows_text_or_binary, bind_ret]
  rfl

theorem text_plain_png_is_image_png_witness :
    "text/plain" ∈ plain_text_variants ∧
    sniff false (some "text/plain") "text/plain"
      ([0x89, 0x50, 0x4E, 0x47, 0x0D, 0x0A, 0x1A, 0x0A] ++ bytes "<html><script>")
      (some "text/html") = Outcome.ret "image/png" :=
  ⟨by decide, text_plain_png_is_image_png false _ _ _ (by decide)⟩

/-- C2: with the declared type absent, a sample buffer that begins with the
pattern of an exact (non-whitespace) table row is classified as that row's
`sniffed_type`, whatever bytes follow and whatever the oracle answers. -/
theorem magic_sequences (char_signed : Bool) (hdr : String) (gio_guess : Option String)
    (r : SoupContentSnifferPattern) (hr : r ∈ types_table) (hexact : r.has_ws = false)
    (rest : List Nat) :
    sniff char_signed none hdr (r.pattern ++ rest) gio_guess = Outcome.ret r.sniffed_type := by
  simp only [types_table, List.mem_cons, List.mem_singleton, List.not_mem_nil, or_false] at hr
  rcases hr with h | h | h | h | h | h | h | h | h | h | h | h | h | h | h <;> subst h
  · simp only [sniff, sniff_unknown, List.cons_append, List.nil_append, types_table]
    rw [rows_exact_step _ _ _ _ (by rfl) (by rfl) (by rfl) (by rfl) (by decide)]
    rfl
  · exact absurd hexact (by decide)
  · exact absurd hexact (by decide)
  · exact absurd hexact (by decide)
  all_goals
    simp only [sniff, List.cons_append, List.nil_append]
    rw [sniff_unknown, rows_first_byte _ _ _ (by decide) (by decide), bind_ret]
    rfl

theorem magic_sequences_witness :
    (∀ rest : List Nat, sniff false none "" (bytes "%PDF-" ++ rest) (some "text/plain") =
      Outcome.ret "application/pdf") ∧
    (∀ rest : List Nat, sniff false none "" (bytes "GIF89a" ++ rest) (some "text/plain") =
      Outcome.ret "image/gif") ∧
    (∀ rest : List Nat, sniff false none ""
      ([0x89, 0x50, 0x4E, 0x47, 0x0D, 0x0A, 0x1A, 0x0A] ++ rest) (some "text/plain") =
      Outcome.ret "image/png") :=
  ⟨fun rest => magic_sequences false "" (some "text/plain") (types_table.get ⟨4, by decide⟩)
      (by decide) (by decide) rest,
   fun rest => magic_sequences false "" (some "text/plain") (types_table.get ⟨10, by decide⟩)
      (by decide) (by decide) rest,
   fun rest => magic_sequences false "" (some "text/plain") (types_table.get ⟨11, by decide⟩)
      (by decide) (by decide) rest⟩

/-! ## White space rows -/

/-- Dropping the first byte of the buffer shifts the stream index of the loop. -/
theorem ws_row_loop_shift (row : SoupContentSnifferPattern) (b : Nat) (res : List Nat) (rl : Nat) :
    ∀ fuel is ip, ws_row_loop row (b :: res) (rl + 1) fuel (is + 1) ip =
      ws_row_loop row res rl fuel is ip
  | 0, _, _ => rfl
  | fuel + 1, is, ip => by
    rw [ws_row_loop, ws_row_loop]
    simp only [Nat.add_lt_add_iff_right, buf_at_cons_succ]
    rw [ws_row_loop_shift row b res rl fuel (is + 1) ip,
      ws_row_loop_shift row b res rl fuel is (ip + 1),
      ws_row_loop_shift row b res rl fuel (is + 1) (ip + 1)]

/-- While the pattern index stands on the leading space of the pattern, a run of
white space at the start of the buffer is consumed byte by byte. -/
theorem ws_row_loop_skip_ws (row : SoupContentSnifferPattern)
    (hp : cstr_at row.pattern 0 = Outcome.ret 0x20) (res : List Nat) (rl fuel : Nat) :
    ∀ w : List Nat, (∀ b ∈ w, is_generic_ws b = true) →
      ws_row_loop row (w ++ res) (w.length + rl) (w.length + fuel) 0 0 =
        ws_row_loop row res rl fuel 0 0
  | [], _ => by simp
  | b :: w, hw => by
    have hb : is_generic_ws b = true := hw b (List.mem_cons_self _ _)
    have ih := ws_row_loop_skip_ws row hp res rl fuel w
      (fun x hx => hw x (List.mem_cons_of_mem _ hx))
    rw [List.cons_append, List.length_cons,
      show w.length + 1 + fuel = (w.length + fuel) + 1 by omega,
      show w.length + 1 + rl = (w.length + rl) + 1 by omega,
      ws_row_loop, if_pos (by omega), hp, bind_ret, if_pos rfl, buf_at_cons_zero, bind_ret,
      if_pos hb, ws_row_loop_shift, ih]

theorem ascii_case_variant_cons (t : List Nat) (c : Nat) (cs : List Nat)
    (h : ascii_case_variant t (c :: cs) = true) :
    ∃ b bs, t = b :: bs ∧ ascii_case_variant bs cs = true ∧
      (b = c ∨ (0x41 ≤ c ∧ c ≤ 0x5A ∧ b = c + 32) ∨ (0x61 ≤ c ∧ c ≤ 0x7A ∧ b + 32 = c)) := by
  cases t with
  | nil => simp [ascii_case_variant] at h
  | cons b bs =>
    simp only [ascii_case_variant, Bool.and_eq_true, Bool.or_eq_true, beq_iff_eq,
      decide_eq_true_eq] at h
    refine ⟨b, bs, rfl, h.2, ?_⟩
    rcases h.1 with (h1 | h1) | h1
    · exact Or.inl h1
    · exact Or.inr (Or.inl ⟨h1.1.1, h1.1.2, h1.2⟩)
    · exact Or.inr (Or.inr ⟨h1.1.1, h1.1.2, h1.2⟩)

theorem ascii_case_variant_nil (t : List Nat) (h : ascii_case_variant t [] = true) : t = [] := by
  cases t with
  | nil => rfl
  | cons b bs => simp [ascii_case_variant] at h

theorem ascii_case_variant_html (t : List Nat) (h : ascii_case_variant t (bytes "<HTML") = true) :
    ∃ a b c d, t = [0x3C, a, b, c, d] ∧ (a = 0x48 ∨ a = 0x68) ∧ (b = 0x54 ∨ b = 0x74) ∧
      (c = 0x4D ∨ c = 0x6D) ∧ (d = 0x4C ∨ d = 0x6C) := by
  have e : bytes "<HTML" = [0x3C, 0x48, 0x54, 0x4D, 0x4C] := by decide
  rw [e] at h
  obtain ⟨x, t1, rfl, h1, hx⟩ := ascii_case_variant_cons _ _ _ h
  obtain ⟨a, t2, rfl, h2, ha⟩ := ascii_case_variant_cons _ _ _ h1
  obtain ⟨b, t3, rfl, h3, hb⟩ := ascii_case_variant_cons _ _ _ h2
  obtain ⟨c, t4, rfl, h4, hc⟩ := ascii_case_variant_cons _ _ _ h3
  obtain ⟨d, t5, rfl, h5, hd⟩ := ascii_case_variant_cons _ _ _ h4
  have h6 := ascii_case_variant_nil _ h5
  subst h6
  have ex : x = 0x3C := by omega
  subst ex
  exact ⟨a, b, c, d, rfl, by omega, by omega, by omega, by omega⟩

/-- C4: with the declared type absent, a sample buffer made of any number of
generic white space bytes followed by exactly the five bytes `<HTML`, in any
letter case, and nothing else (at most 512 bytes in all) is classified
`text/html`: the test `index_pattern > pattern_length` asks for no byte beyond
the pattern. -/
theorem ws_html_without_extra_byte (char_signed : Bool) (hdr : String) (gio_guess : Option String)
    (w t : List Nat) (hw : ∀ b ∈ w, is_generic_ws b = true)
    (ht : ascii_case_variant t (bytes "<HTML") = true) (hlen : w.length + t.length ≤ 512) :
    sniff char_signed none hdr (w ++ t) gio_guess = Outcome.ret "text/html" := by
  obtain ⟨a, b, c, d, rfl, ha, hb, hc, hd⟩ := ascii_case_variant_html t ht
  have hrl : resource_length (w ++ [0x3C, a, b, c, d]) = w.length + 5 := by
    simp only [resource_length, List.length_append, List.length_cons, List.length_nil] at hlen ⊢
    omega
  simp only [sniff, sniff_unknown, types_table]
  rw [rows_exact_step _ _ _ _ (by rfl) (by rfl) (by rfl) (by rfl) (by decide)]
  split
  · rfl
  · rw [sniff_unknown_rows]
    simp only [Bool.false_and, Bool.false_eq_true, if_false, if_true]
    rw [hrl, ws_row_fuel, show w.length + 5 + [0x20, 0x3C, 0x48, 0x54, 0x4D, 0x4C].length + 3
      = w.length + 14 by rfl, ws_row_loop_skip_ws _ (by rfl) _ _ _ _ hw]
    rcases ha with ha | ha <;> rcases hb with hb | hb <;> rcases hc with hc | hc <;>
      rcases hd with hd | hd <;> subst ha hb hc hd <;> rfl

theorem ws_html_without_extra_byte_witness :
    (∀ b ∈ bytes "  ", is_generic_ws b = true) ∧
    ascii_case_variant (bytes "<HTML") (bytes "<HTML") = true ∧
    (bytes "  ").length + (bytes "<HTML").length ≤ 512 ∧
    sniff false none "" (bytes "  " ++ bytes "<HTML") none = Outcome.ret "text/html" :=
  ⟨by decide, by decide, by decide,
    ws_html_without_extra_byte false "" none (bytes "  ") (bytes "<HTML") (by decide) (by decide)
      (by decide)⟩

/-! ## The dispatcher on XML and image types -/

theorem has_suffix_data (ct suffix : String) (h : g_str_has_suffix ct suffix = true) :
    ∃ pre, ct.data = pre ++ suffix.data := by
  simp only [g_str_has_suffix] at h
  split at h
  · simp at h
  · refine ⟨ct.data.take (ct.data.length - suffix.data.length), ?_⟩
    have e : List.drop (ct.data.length - suffix.data.length) ct.data = suffix.data := by
      simpa using h
    have e3 := List.take_append_drop (ct.data.length - suffix.data.length) ct.data
    rw [e] at e3
    exact e3.symm

theorem lowered_last_of_xml_suffix (ct : String) (h : g_str_has_suffix ct "+xml" = true) :
    (ct.data.map g_ascii_tolower).reverse.head? = some 'l' := by
  obtain ⟨pre, e⟩ := has_suffix_data _ _ h
  rw [e]
  have e2 : ("+xml" : String).data = ['+', 'x', 'm', 'l'] := rfl
  rw [e2]
  simp only [List.map_append, List.map_cons, List.map_nil, List.reverse_append,
    List.reverse_cons, List.reverse_nil, List.nil_append, List.cons_append, List.head?_cons]
  decide

theorem casecmp_false_of_last (ct lit : String) (c : Char)
    (h : (ct.data.map g_ascii_tolower).reverse.head? = some c)
    (hl : (lit.data.map g_ascii_tolower).reverse.head? ≠ some c) :
    g_ascii_strcasecmp_eq ct lit = false := by
  simp only [g_ascii_strcasecmp_eq, beq_eq_false_iff_ne, ne_eq]
  intro e
  rw [e] at h
  exact hl h

theorem casecmp_false_of_first (ct lit : String) (c : Char)
    (h : (ct.data.map g_ascii_tolower).head? = some c)
    (hl : (lit.data.map g_ascii_tolower).head? ≠ some c) :
    g_ascii_strcasecmp_eq ct lit = false := by
  simp only [g_ascii_strcasecmp_eq, beq_eq_false_iff_ne, ne_eq]
  intro e
  rw [e] at h
  exact hl h

/-- C7: a declared type that is `application/xml` or `text/xml` or ends in
`+xml` is returned unchanged, for every header value, sample buffer and oracle
answer; the image classifier is never reached with it. -/
theorem xml_passthrough (char_signed : Bool) (hdr : String) (buffer : List Nat)
    (gio_guess : Option String) (ct : String)
    (h : ct = "application/xml" ∨ ct = "text/xml" ∨ g_str_has_suffix ct "+xml" = true) :
    sniff char_signed (some ct) hdr buffer gio_guess = Outcome.ret ct := by
  have hfirst : (g_ascii_strcasecmp_eq ct "unknown/unknown" ||
      g_ascii_strcasecmp_eq ct "application/unknown" || g_ascii_strcasecmp_eq ct "*/*") = false := by
    rcases h with h | h | h
    · subst h; decide
    · subst h; decide
    · have hl := lowered_last_of_xml_suffix ct h
      rw [casecmp_false_of_last ct _ _ hl (by decide), casecmp_false_of_last ct _ _ hl (by decide),
        casecmp_false_of_last ct _ _ hl (by decide)]
      rfl
  have hsecond : (g_str_has_suffix ct "+xml" || g_ascii_strcasecmp_eq ct "text/xml" ||
      g_ascii_strcasecmp_eq ct "application/xml") = true := by
    rcases h with h | h | h
    · subst h; decide
    · subst h; decide
    · rw [h]; rfl
  simp only [sniff, hfirst, hsecond, Bool.false_eq_true, if_false, if_true]

theorem xml_passthrough_witness :
    ("image/svg+xml" = "application/xml" ∨ "image/svg+xml" = "text/xml" ∨
      g_str_has_suffix "image/svg+xml" "+xml" = true) ∧
    sniff false (some "image/svg+xml") "image/svg+xml" (bytes "GIF89a") (some "image/gif") =
      Outcome.ret "image/svg+xml" :=
  ⟨by decide, xml_passthrough false _ _ _ "image/svg+xml" (by decide)⟩

theorem sniff_images_rows_spec (resource : List Nat) (ct : String) :
    ∀ rows : List SoupContentSnifferPattern,
      (∀ row ∈ rows, g_str_has_prefix row.sniffed_type "image/" = true →
        row.pattern.length = row.pattern_length ∧ row.pattern_length ≤ 512) →
      sniff_images_rows resource ct rows =
        Outcome.ret (match rows.find? (fun rule =>
            g_str_has_prefix rule.sniffed_type "image/" && rule.pattern.isPrefixOf resource) with
          | some rule => rule.sniffed_type
          | none => ct)
  | [], _ => rfl
  | row :: rows, hok => by
    have ih := sniff_images_rows_spec resource ct rows
      (fun r hr => hok r (List.mem_cons_of_mem _ hr))
    have hrow := hok row (List.mem_cons_self _ _)
    rw [sniff_images_rows, List.find?_cons]
    by_cases himg : g_str_has_prefix row.sniffed_type "image/" = true
    · obtain ⟨hlen, h512⟩ := hrow himg
      have hpre : row.pattern.isPrefixOf resource = true ↔
          row.pattern = resource.take row.pattern_length := by
        rw [List.isPrefixOf_iff_prefix, List.prefix_iff_eq_take, hlen]
      by_cases hshort : resource_length resource < row.pattern_length
      · have hno : row.pattern.isPrefixOf resource = false := by
          rw [Bool.eq_false_iff]
          intro hp
          have := (List.isPrefixOf_iff_prefix.1 hp).length_le
          simp only [resource_length] at hshort
          omega
        simp only [hshort, if_true, himg, hno, Bool.and_false]
        exact ih
      · have hle := resource_length_le resource
        have hmem : memcmp_eq (row.pattern ++ [0]) resource row.pattern_length =
            Outcome.ret (row.pattern == resource.take row.pattern_length) := by
          rw [memcmp_eq, if_pos ⟨by simp; omega, by omega⟩, ← hlen, List.take_left']
          rfl
        simp only [hshort, if_false, himg, Bool.not_true, Bool.false_eq_true, hmem, bind_ret,
          Bool.true_and]
        by_cases heq : row.pattern = resource.take row.pattern_length
        · have h1 : (row.pattern == List.take row.pattern_length resource) = true := by
            simpa using heq
          simp only [h1, hpre.2 heq, if_true]
        · have h1 : (row.pattern == List.take row.pattern_length resource) = false := by
            simpa using heq
          have h2 : row.pattern.isPrefixOf resource = false := by
            rw [Bool.eq_false_iff]; exact fun hp => heq (hpre.1 hp)
          simp only [h1, h2, Bool.false_eq_true, if_false]
          exact ih
    · have himg2 : g_str_has_prefix row.sniffed_type "image/" = false := by simpa using himg
      simp only [himg2, Bool.not_false, if_true, Bool.false_and, ite_self]
      exact ih

theorem types_table_image_rows : ∀ row ∈ types_table,
    g_str_has_prefix row.sniffed_type "image/" = true →
      row.pattern.length = row.pattern_length ∧ row.pattern_length ≤ 512 := by
  decide

theorem lowered_first_of_image (ct : String) (h : g_ascii_strncasecmp_eq ct "image/" 6 = true) :
    (ct.data.map g_ascii_tolower).head? = some 'i' := by
  simp only [g_ascii_strncasecmp_eq, beq_iff_eq] at h
  have e : (List.take 6 ("image/" : String).data).map g_ascii_tolower =
      ['i', 'm', 'a', 'g', 'e', '/'] := by decide
  rw [e] at h
  cases hd : ct.data with
  | nil => rw [hd] at h; simp at h
  | cons c cs =>
    rw [hd] at h
    simp only [List.take_succ_cons, List.map_cons, List.cons.injEq] at h
    simp [h.1]

/-- C8: a declared type that starts with `image/` (ignoring ASCII case) and
does not end in `+xml` is classified by the image rules alone: the result is
the `sniffed_type` of the first table rule, in table order, whose type starts
with `image/` and whose pattern is a byte-for-byte prefix of the buffer, and
the declared type when there is none; the oracle is not consulted. -/
theorem image_classifier (char_signed : Bool) (hdr : String) (buffer : List Nat)
    (gio_guess : Option String) (ct : String)
    (himage : g_ascii_strncasecmp_eq ct "image/" 6 = true)
    (hxml : g_str_has_suffix ct "+xml" = false) :
    sniff char_signed (some ct) hdr buffer gio_guess =
      Outcome.ret (image_classifier_spec buffer ct) := by
  have hf := lowered_first_of_image ct himage
  have h1 := casecmp_false_of_first ct "unknown/unknown" _ hf (by decide)
  have h2 := casecmp_false_of_first ct "application/unknown" _ hf (by decide)
  have h3 := casecmp_false_of_first ct "*/*" _ hf (by decide)
  have h4 := casecmp_false_of_first ct "text/xml" _ hf (by decide)
  have h5 := casecmp_false_of_first ct "application/xml" _ hf (by decide)
  simp only [sniff, h1, h2, h3, h4, h5, hxml, himage, Bool.or_self, Bool.false_eq_true, if_false,
    if_true, sniff_images, image_classifier_spec]
  exact sniff_images_rows_spec buffer ct types_table types_table_image_rows

theorem image_classifier_witness :
    g_ascii_strncasecmp_eq "image/png" "image/" 6 = true ∧
    g_str_has_suffix "image/png" "+xml" = false ∧
    sniff false (some "image/png") "image/png" (bytes "GIF89a") (some "text/html") =
      Outcome.ret (image_classifier_spec (bytes "GIF89a") "image/png") ∧
    image_classifier_spec (bytes "GIF89a") "image/png" = "image/gif" ∧
    image_classifier_spec (bytes "<html") "image/bmp" = "image/bmp" ∧
    image_classifier_spec (bytes "%PDF-") "image/bmp" = "image/bmp" :=
  ⟨by decide, by decide, image_classifier false _ _ _ "image/png" (by decide) (by decide),
    by decide, by decide, by decide⟩

/-- C3: on the buffer `<html><body>` with the declared type absent the loop of
the `<HTML` row goes on after the last pattern byte has matched: it compares
`>` with the terminating NUL of the pattern and then reads `pattern[7]`,
outside the array, instead of returning `text/html`. -/
theorem ws_row_reads_past_pattern (char_signed : Bool) (hdr : String) (gio_guess : Option String) :
    sniff char_signed none hdr (bytes "<html><body>") gio_guess = Outcome.outOfBounds := by
  rfl

/-- C10: with declared type `unknown/unknown` the buffer `<html><body>`, which
the `<HTML` rule matches, is not classified `text/html`: the row's loop reads
outside its pattern array. -/
theorem unknown_type_ws_row_overrun (char_signed : Bool) (hdr : String)
    (gio_guess : Option String) :
    sniff char_signed (some "unknown/unknown") hdr (bytes "<html><body>") gio_guess =
      Outcome.outOfBounds := by
  rfl

/-- C9: with declared type `text/html` the buffer `<br><!><rss>`, whose first
tag is `br`, is classified `application/rss+xml`: the comment test accepts
`<br>` because `resource[pos + 2]` is `>`. -/
theorem first_tag_br_classified_rss (char_signed : Bool) (gio_guess : Option String) :
    sniff char_signed (some "text/html") "text/html" (bytes "<br><!><rss>") gio_guess =
      Outcome.ret "application/rss+xml" := by
  cases char_signed <;> rfl

/-! ## The iteration budget of the white space loop -/

theorem buf_at_ne_outOfFuel (resource : List Nat) (i : Nat) :
    buf_at resource i ≠ Outcome.outOfFuel := by
  simp only [buf_at]
  split <;> simp

theorem cstr_at_ne_outOfFuel (s : List Nat) (i : Nat) : cstr_at s i ≠ Outcome.outOfFuel := by
  simp only [cstr_at]
  split
  · simp
  · split <;> simp

/-- The budget `ws_row_fuel` is never what ends the loop of a white space row. -/
theorem ws_row_loop_fuel_ok (row : SoupContentSnifferPattern) (resource : List Nat) (rl : Nat) :
    ∀ fuel is ip, (rl - is) + (row.pattern.length + 2 - ip) < fuel →
      ws_row_loop row resource rl fuel is ip ≠ Outcome.outOfFuel
  | 0, _, _, h => by omega
  | fuel + 1, is, ip, h => by
    rw [ws_row_loop]
    by_cases hlt : is < rl
    · rw [if_pos hlt]
      by_cases hip : ip ≤ row.pattern.length
      · have r1 := ws_row_loop_fuel_ok row resource rl fuel (is + 1) ip (by omega)
        have r2 := ws_row_loop_fuel_ok row resource rl fuel is (ip + 1) (by omega)
        have r3 := ws_row_loop_fuel_ok row resource rl fuel (is + 1) (ip + 1) (by omega)
        have hb0 := buf_at_ne_outOfFuel resource is
        have hm0 := cstr_at_ne_outOfFuel row.mask ip
        have hp0 := cstr_at_ne_outOfFuel row.pattern ip
        cases hp : cstr_at row.pattern ip with
        | outOfFuel => exact absurd hp hp0
        | outOfBounds => simp
        | ret p =>
          rw [bind_ret]
          cases hb : buf_at resource is with
          | outOfFuel => exact absurd hb hb0
          | outOfBounds =>
            cases hm : cstr_at row.mask ip with
            | outOfFuel => exact absurd hm hm0
            | outOfBounds => split <;> simp
            | ret m => split <;> simp
          | ret r =>
            cases hm : cstr_at row.mask ip with
            | outOfFuel => exact absurd hm hm0
            | outOfBounds => split
                             · rw [bind_ret]; split <;> assumption
                             · simp
            | ret m =>
              simp only [bind_ret]
              split
              · split <;> assumption
              · split
                · simp
                · exact r3
      · have hp : cstr_at row.pattern ip = Outcome.outOfBounds := by
          simp only [cstr_at]
          rw [if_neg (by omega), if_neg (by omega)]
        rw [hp]; simp
    · rw [if_neg hlt]; simp

/-! ## The dispatcher on unknown types and on `text/html` -/

/-- The dispatcher sends an absent declared type, `unknown/unknown`,
`application/unknown` and `*/*` (in any letter case) to `sniff_unknown` with
scriptable rows allowed, whatever the header value. -/
theorem sniff_unknown_declared (char_signed : Bool) (ct : Option String) (hdr : String)
    (buffer : List Nat) (gio_guess : Option String)
    (h : ct = none ∨ ∃ s, ct = some s ∧ (g_ascii_strcasecmp_eq s "unknown/unknown" = true ∨
      g_ascii_strcasecmp_eq s "application/unknown" = true ∨ g_ascii_strcasecmp_eq s "*/*" = true)) :
    sniff char_signed ct hdr buffer gio_guess = sniff_unknown buffer gio_guess false := by
  rcases h with h | ⟨s, h, hs⟩
  · subst h; rfl
  · subst h
    have : (g_ascii_strcasecmp_eq s "unknown/unknown" ||
        g_ascii_strcasecmp_eq s "application/unknown" || g_ascii_strcasecmp_eq s "*/*") = true := by
      rcases hs with h | h | h <;> simp [h]
    simp only [sniff, this, if_true]

/-- The dispatcher sends a declared `text/html` whose header value is none of
the four plain-text variants to `sniff_feed_or_html`. -/
theorem sniff_text_html (char_signed : Bool) (hdr : String) (buffer : List Nat)
    (gio_guess : Option String) (hhdr : hdr ∉ plain_text_variants) :
    sniff char_signed (some "text/html") hdr buffer gio_guess =
      sniff_feed_or_html char_signed buffer := by
  have h1 : g_ascii_strcasecmp_eq "text/html" "unknown/unknown" = false := by decide
  have h2 : g_ascii_strcasecmp_eq "text/html" "application/unknown" = false := by decide
  have h3 : g_ascii_strcasecmp_eq "text/html" "*/*" = false := by decide
  have h4 : g_str_has_suffix "text/html" "+xml" = false := by decide
  have h5 : g_ascii_strcasecmp_eq "text/html" "text/xml" = false := by decide
  have h6 : g_ascii_strcasecmp_eq "text/html" "application/xml" = false := by decide
  have h7 : g_ascii_strncasecmp_eq "text/html" "image/" 6 = false := by decide
  have h9 : g_ascii_strcasecmp_eq "text/html" "text/html" = true := by decide
  have h8 : (g_str_equal hdr "text/plain" ||
        g_str_equal hdr "text/plain; charset=ISO-8859-1" ||
        g_str_equal hdr "text/plain; charset=iso-8859-1" ||
        g_str_equal hdr "text/plain; charset=UTF-8") = false := by
    simp only [plain_text_variants, List.mem_cons, List.mem_singleton, List.not_mem_nil,
      or_false, not_or] at hhdr
    simp [g_str_equal, hhdr]
  simp only [sniff, h1, h2, h3, h4, h5, h6, h7, h8, h9, Bool.or_self, Bool.false_eq_true,
    if_false, if_true]

/-- A buffer that begins with `<rss` under a declared `text/html` is a feed. -/
theorem feed_or_html_rss (char_signed : Bool) (hdr : String) (gio_guess : Option String)
    (hhdr : hdr ∉ plain_text_variants) (rest : List Nat) :
    sniff char_signed (some "text/html") hdr (bytes "<rss" ++ rest) gio_guess =
      Outcome.ret "application/rss+xml" := by
  rw [sniff_text_html _ _ _ _ hhdr]
  cases char_signed <;> rfl

/-- A buffer that begins with `<feed` under a declared `text/html` is an Atom feed. -/
theorem feed_or_html_atom (char_signed : Bool) (hdr : String) (gio_guess : Option String)
    (hhdr : hdr ∉ plain_text_variants) (rest : List Nat) :
    sniff char_signed (some "text/html") hdr (bytes "<feed" ++ rest) gio_guess =
      Outcome.ret "application/atom+xml" := by
  rw [sniff_text_html _ _ _ _ hhdr]
  cases char_signed <;> rfl

/-- The buffer `<html><!-- c --><rss>` under a declared `text/html` stays `text/html`. -/
theorem feed_or_html_first_tag_html (char_signed : Bool) (gio_guess : Option String) :
    sniff char_signed (some "text/html") "text/html" (bytes "<html><!-- c --><rss>") gio_guess =
      Outcome.ret "text/html" := by
  cases char_signed <;> rfl

/-- An empty buffer of unknown type without an oracle guess is `application/octet-stream`. -/
theorem unknown_empty_buffer (char_signed : Bool) (hdr : String) :
    sniff char_signed none hdr [] none = Outcome.ret "application/octet-stream" := by
  rfl

/-! ## Declared types that are trusted -/

/-- C12: a declared type that is present, is none of `unknown/unknown`,
`application/unknown`, `*/*`, does not start with `image/` and is not
`text/html` (all ignoring ASCII case) is returned unchanged for every buffer
and oracle answer when the header value is none of the four plain-text
variants. -/
theorem declared_type_trusted (char_signed : Bool) (ct hdr : String) (buffer : List Nat)
    (gio_guess : Option String)
    (h1 : g_ascii_strcasecmp_eq ct "unknown/unknown" = false)
    (h2 : g_ascii_strcasecmp_eq ct "application/unknown" = false)
    (h3 : g_ascii_strcasecmp_eq ct "*/*" = false)
    (himage : g_ascii_strncasecmp_eq ct "image/" 6 = false)
    (hhtml : g_ascii_strcasecmp_eq ct "text/html" = false)
    (hhdr : hdr ∉ plain_text_variants) :
    sniff char_signed (some ct) hdr buffer gio_guess = Outcome.ret ct := by
  have h8 : (g_str_equal hdr "text/plain" ||
        g_str_equal hdr "text/plain; charset=ISO-8859-1" ||
        g_str_equal hdr "text/plain; charset=iso-8859-1" ||
        g_str_equal hdr "text/plain; charset=UTF-8") = false := by
    simp only [plain_text_variants, List.mem_cons, List.mem_singleton, List.not_mem_nil,
      or_false, not_or] at hhdr
    simp [g_str_equal, hhdr]
  simp only [sniff, h1, h2, h3, himage, hhtml, h8, Bool.or_self, Bool.false_eq_true, if_false]
  split <;> rfl

theorem declared_type_trusted_witness :
    g_ascii_strcasecmp_eq "text/plain" "unknown/unknown" = false ∧
    g_ascii_strcasecmp_eq "text/plain" "application/unknown" = false ∧
    g_ascii_strcasecmp_eq "text/plain" "*/*" = false ∧
    g_ascii_strncasecmp_eq "text/plain" "image/" 6 = false ∧
    g_ascii_strcasecmp_eq "text/plain" "text/html" = false ∧
    "text/plain; charset=utf-8" ∉ plain_text_variants ∧
    sniff false (some "text/plain") "text/plain; charset=utf-8"
      [0x89, 0x50, 0x4E, 0x47, 0x0D, 0x0A, 0x1A, 0x0A, 0x00, 0x01] (some "image/png") =
      Outcome.ret "text/plain" :=
  ⟨by decide, by decide, by decide, by decide, by decide, by decide,
    declared_type_trusted false "text/plain" "text/plain; charset=utf-8" _ _
      (by decide) (by decide) (by decide) (by decide) (by decide) (by decide)⟩

/-! ## Failing inputs of the feed scanner, the suffix test and the byte-order marks -/

/-- C13: with declared type `text/html` the scanner reads outside the sample
buffer on the empty buffer (`resource[0]`), on `<!a` (`resource[3]`) and on
`<?xml` (`resource[5]`) instead of classifying them `text/html`. -/
theorem feed_scanner_reads_out_of_bounds (char_signed : Bool) (gio_guess : Option String) :
    sniff char_signed (some "text/html") "text/html" [] gio_guess = Outcome.outOfBounds ∧
    sniff char_signed (some "text/html") "text/html" (bytes "<!a") gio_guess =
      Outcome.outOfBounds ∧
    sniff char_signed (some "text/html") "text/html" (bytes "<?xml") gio_guess =
      Outcome.outOfBounds := by
  cases char_signed <;> exact ⟨rfl, rfl, rfl⟩

/-- C14: with declared type `text/html` the buffer `<!-- c --><rss>` is
classified `text/html`: the loop of the comment branch stops at the first
`pos` with `-` at `pos`, `-` at `pos + 1` or `>` at `pos + 2` (here `pos = 6`)
and the scan resumes inside the comment. -/
theorem comment_then_rss_classified_html (char_signed : Bool) (gio_guess : Option String) :
    sniff char_signed (some "text/html") "text/html" (bytes "<!-- c --><rss>") gio_guess =
      Outcome.ret "text/html" := by
  cases char_signed <;> rfl

/-- C15: where plain `char` is signed, a `text/plain` buffer that begins with
the UTF-16LE mark `FF FE` and holds a zero byte is not classified `text/plain`:
the comparisons with `0xFF` and `0xFE` are false, and the table row for this
mark has the pattern `FF FF`. -/
theorem utf16le_mark_signed_char :
    sniff true (some "text/plain") "text/plain" [0xFF, 0xFE, 0x41, 0x00] none =
      Outcome.ret "application/octet-stream" ∧
    sniff true (some "text/plain") "text/plain" [0xFF, 0xFE, 0x41, 0x00]
      (some "application/x-extension-bin") = Outcome.ret "application/x-extension-bin" := by
  exact ⟨rfl, rfl⟩

/-- C17: the declared type `image/svg+XML` is not returned unchanged: the
suffix test is case-sensitive, the type goes to `sniff_images`, and a buffer
that starts with `GIF89a` is classified `image/gif`. -/
theorem svg_upper_case_suffix_sniffed (char_signed : Bool) (hdr : String)
    (gio_guess : Option String) :
    sniff char_signed (some "image/svg+XML") hdr (bytes "GIF89a") gio_guess =
      Outcome.ret "image/gif" := by
  rfl

/-! ## Byte-order marks where `char` is unsigned -/

/-- Where plain `char` is unsigned, a buffer of four bytes or more that begins
with one of the three byte-order marks is `text/plain` at once. -/
theorem bom_text_plain_unsigned (hdr : String) (gio_guess : Option String)
    (hhdr : hdr ∈ plain_text_variants) (a b c d : Nat) (rest : List Nat)
    (hbom : (a = 0xFE ∧ b = 0xFF) ∨ (a = 0xFF ∧ b = 0xFE) ∨ (a = 0xEF ∧ b = 0xBB ∧ c = 0xBF)) :
    sniff false (some "text/plain") hdr (a :: b :: c :: d :: rest) gio_guess =
      Outcome.ret "text/plain" := by
  rw [sniff_text_plain _ _ _ _ hhdr, sniff_text_or_binary]
  have hlen : resource_length (a :: b :: c :: d :: rest) ≥ 4 := by
    simp only [resource_length, List.length_cons]
    omega
  rw [if_pos hlen]
  have hb : bom_test false (a :: b :: c :: d :: rest) = Outcome.ret true := by
    simp only [bom_test, buf_at_cons_zero, buf_at_cons_succ, bind_ret, and_then_ret, or_else_ret]
    rcases hbom with ⟨h1, h2⟩ | ⟨h1, h2⟩ | ⟨h1, h2, h3⟩ <;> simp [char_eq_int, h1, h2, *]
  rw [hb, bind_ret]
  rfl

/-! ## The binary-byte table -/

/-- A buffer in whose first 512 bytes no byte is flagged binary-looking is
`text/plain` for `sniff_text_or_binary`. -/
theorem text_or_binary_of_text (char_signed : Bool) (buffer : List Nat)
    (gio_guess : Option String)
    (htext : ∀ b ∈ buffer.take 512, looks_binary_byte b = false) :
    sniff_text_or_binary char_signed buffer gio_guess = Outcome.ret "text/plain" := by
  rw [sniff_text_or_binary]
  have hbom : ∃ b, (if resource_length buffer ≥ 4 then bom_test char_signed buffer
      else Outcome.ret false) = Outcome.ret b := by
    by_cases h4 : resource_length buffer ≥ 4
    · rw [if_pos h4]
      exact bom_test_total _ _ (by have := resource_length_le buffer; omega)
    · rw [if_neg h4]; exact ⟨false, rfl⟩
  obtain ⟨b, hb⟩ := hbom
  rw [hb, bind_ret]
  cases b with
  | true => simp
  | false =>
    rw [looks_binary_loop_spec _ _ _ (by have := resource_length_le buffer; omega), bind_ret]
    have hany : ((buffer.drop 0).take (resource_length buffer)).any looks_binary_byte = false := by
      rw [List.drop_zero, List.any_eq_false]
      intro x hx
      have hsub : buffer.take (resource_length buffer) = buffer.take 512 := by
        simp only [resource_length]
        rw [List.take_eq_take]
        simp
      rw [hsub] at hx
      simp [htext x hx]
    rw [hany]
    simp

set_option maxRecDepth 100000 in
theorem looks_binary_byte_table : ∀ b < 256, (looks_binary_byte b = true ↔
    (b ≤ 0x1F ∧ b ≠ 0x09 ∧ b ≠ 0x0A ∧ b ≠ 0x0C ∧ b ≠ 0x0D ∧ b ≠ 0x1B)) := by
  decide

/-- C16, counterexample: the escape byte `0x1B` is not flagged binary-looking,
and a `text/plain` buffer whose only control byte is `0x1B` is not handed to
the Unknown-Type Classifier: it stays `text/plain` although the oracle would
answer otherwise. -/
theorem escape_byte_not_binary :
    looks_binary_byte 0x1B = false ∧
    sniff false (some "text/plain") "text/plain" [0x41, 0x1B, 0x5B, 0x6D] (some "application/x-ansi")
      = Outcome.ret "text/plain" := by
  exact ⟨rfl, rfl⟩

/-- C16, amended: a byte value `b` in `0..255` is flagged binary-looking exactly
when it is a C0 control byte (`0x00` to `0x1F`) other than `0x09`, `0x0A`,
`0x0C`, `0x0D` and `0x1B`; no byte from `0x20` to `0xFF` is flagged.  Hence a
`text/plain` buffer whose first 512 bytes hold no control byte other than those
five is classified `text/plain`. -/
theorem binary_byte_classifier (b : Nat) (hb : b < 256) (char_signed : Bool) (hdr : String)
    (buffer : List Nat) (gio_guess : Option String) (hhdr : hdr ∈ plain_text_variants)
    (hbuf : ∀ x ∈ buffer.take 512, x < 256 ∧
      (0x20 ≤ x ∨ x = 0x09 ∨ x = 0x0A ∨ x = 0x0C ∨ x = 0x0D ∨ x = 0x1B)) :
    (looks_binary_byte b = true ↔
      (b ≤ 0x1F ∧ b ≠ 0x09 ∧ b ≠ 0x0A ∧ b ≠ 0x0C ∧ b ≠ 0x0D ∧ b ≠ 0x1B)) ∧
    (0x20 ≤ b → looks_binary_byte b = false) ∧
    sniff char_signed (some "text/plain") hdr buffer gio_guess = Outcome.ret "text/plain" := by
  refine ⟨looks_binary_byte_table b hb, ?_, ?_⟩
  · intro h20
    rw [← Bool.not_eq_true, looks_binary_byte_table b hb]
    omega
  · rw [sniff_text_plain _ _ _ _ hhdr]
    apply text_or_binary_of_text
    intro x hx
    obtain ⟨hx256, hx2⟩ := hbuf x hx
    rw [← Bool.not_eq_true, looks_binary_byte_table x hx256]
    omega

theorem binary_byte_classifier_witness :
    (0x1B : Nat) < 256 ∧ "text/plain" ∈ plain_text_variants ∧
    (∀ x ∈ ([0x41, 0x1B, 0x5B, 0x6D] : List Nat).take 512, x < 256 ∧
      (0x20 ≤ x ∨ x = 0x09 ∨ x = 0x0A ∨ x = 0x0C ∨ x = 0x0D ∨ x = 0x1B)) ∧
    ((looks_binary_byte 0x1B = true ↔
      ((0x1B : Nat) ≤ 0x1F ∧ (0x1B : Nat) ≠ 0x09 ∧ (0x1B : Nat) ≠ 0x0A ∧ (0x1B : Nat) ≠ 0x0C ∧
        (0x1B : Nat) ≠ 0x0D ∧ (0x1B : Nat) ≠ 0x1B)) ∧
    ((0x20 : Nat) ≤ 0x1B → looks_binary_byte 0x1B = false) ∧
    sniff true (some "text/plain") "text/plain" [0x41, 0x1B, 0x5B, 0x6D]
      (some "application/x-ansi") = Outcome.ret "text/plain") :=
  ⟨by decide, by decide, by decide,
    binary_byte_classifier 0x1B (by decide) true "text/plain" [0x41, 0x1B, 0x5B, 0x6D]
      (some "application/x-ansi") (by decide) (by decide)⟩

/-! ## White space in the feed scanner -/

theorem buf_at_append_right (w l : List Nat) (k : Nat) :
    buf_at (w ++ l) (w.length + k) = buf_at l k := by
  induction w with
  | nil => simp
  | cons b w ih =>
    rw [List.cons_append, List.length_cons, show w.length + 1 + k = (w.length + k) + 1 by omega,
      buf_at_cons_succ, ih]

theorem buf_at_append_length (w l : List Nat) :
    buf_at (w ++ l) w.length = buf_at l 0 := by
  have := buf_at_append_right w l 0
  simpa using this

/-- The white space test of the loop at `look_for_tag` on a buffer byte. -/
theorem feed_ws_test (resource : List Nat) (pos r : Nat) (h : buf_at resource pos = Outcome.ret r) :
    or_else (byte_is resource pos 0x09)
      (or_else (byte_is resource pos 0x20)
      (or_else (byte_is resource pos 0x0A) (byte_is resource pos 0x0D))) =
    Outcome.ret (is_feed_ws r) := by
  simp only [byte_is, h, bind_ret, or_else_ret, is_feed_ws, Bool.or_assoc]

/-- The loop at `look_for_tag` passes a run of the four white space bytes and
stops at the first other byte. -/
theorem skip_ws_loop_run (c : Nat) (t : List Nat) (hc : is_feed_ws c = false) :
    ∀ (w pre : List Nat) (fuel : Nat), (∀ b ∈ w, is_feed_ws b = true) → w.length < fuel →
      skip_ws_loop (pre ++ (w ++ c :: t)) fuel pre.length = Outcome.ret (pre.length + w.length)
  | [], pre, fuel + 1, _, _ => by
    rw [skip_ws_loop, feed_ws_test _ _ c (by rw [List.nil_append, buf_at_append_length]; rfl),
      bind_ret, hc]
    simp
  | b :: w, pre, fuel + 1, hw, hlt => by
    have hb : is_feed_ws b = true := hw b (List.mem_cons_self _ _)
    have ih := skip_ws_loop_run c t hc w (pre ++ [b]) fuel
      (fun x hx => hw x (List.mem_cons_of_mem _ hx))
      (by simp only [List.length_cons] at hlt; omega)
    rw [skip_ws_loop, feed_ws_test _ _ b (by rw [buf_at_append_length]; rfl), bind_ret, hb,
      if_pos rfl]
    have e : pre ++ [b] ++ (w ++ c :: t) = pre ++ (b :: w ++ c :: t) := by simp
    rw [e, List.length_append, List.length_singleton] at ih
    rw [ih, List.length_cons]
    congr 1
    omega

/-- C18, counterexample: with declared type `text/html` the buffer made of a
form feed followed by `<rss>` is classified `text/html`: `0x0C` is not among
the bytes that the loop at `look_for_tag` skips. -/
theorem form_feed_not_skipped :
    sniff false (some "text/html") "text/html" (0x0C :: bytes "<rss>") none =
      Outcome.ret "text/html" := by
  rfl

/-- C18, amended: the loop at `look_for_tag` skips the four bytes tab (`0x09`),
line feed (`0x0A`), carriage return (`0x0D`) and space (`0x20`), form feed not
included: with declared type `text/html`, a buffer made of a run of these four
bytes followed by `<rss` and arbitrary bytes is classified
`application/rss+xml`. -/
theorem feed_leading_white_space (char_signed : Bool) (hdr : String) (gio_guess : Option String)
    (hhdr : hdr ∉ plain_text_variants) (w rest : List Nat)
    (hw : ∀ b ∈ w, is_feed_ws b = true) :
    sniff char_signed (some "text/html") hdr (w ++ (bytes "<rss" ++ rest)) gio_guess =
      Outcome.ret "application/rss+xml" := by
  rw [sniff_text_html _ _ _ _ hhdr]
  have e : bytes "<rss" = [0x3C, 0x72, 0x73, 0x73] := by decide
  rw [e, sniff_feed_or_html]
  have hbom : (and_then (Outcome.bind (buf_at (w ++ ([0x3C, 0x72, 0x73, 0x73] ++ rest)) 0)
        fun r => Outcome.ret (char_eq_int char_signed r 0xEF))
      (and_then (Outcome.bind (buf_at (w ++ ([0x3C, 0x72, 0x73, 0x73] ++ rest)) 1)
        fun r => Outcome.ret (char_eq_int char_signed r 0xBB))
      (Outcome.bind (buf_at (w ++ ([0x3C, 0x72, 0x73, 0x73] ++ rest)) 2)
        fun r => Outcome.ret (char_eq_int char_signed r 0xBF)))) = Outcome.ret false := by
    cases w with
    | nil => cases char_signed <;> rfl
    | cons b w =>
      have hb : is_feed_ws b = true := hw b (List.mem_cons_self _ _)
      have hne : char_eq_int char_signed b 0xEF = false := by
        simp only [is_feed_ws, Bool.or_eq_true, beq_iff_eq] at hb
        simp only [char_eq_int, Bool.and_eq_false_imp, decide_eq_true_eq]
        intro h; omega
      rw [List.cons_append, buf_at_cons_zero, bind_ret, hne]
      rfl
  rw [hbom, bind_ret]
  simp only [Bool.false_eq_true, if_false]
  rw [scan_fuel, look_for_tag]
  have hskip := skip_ws_loop_run 0x3C (0x72 :: 0x73 :: 0x73 :: rest) (by decide) w []
    (scan_fuel (w ++ ([0x3C, 0x72, 0x73, 0x73] ++ rest))) hw
    (by simp only [scan_fuel, List.length_append]; omega)
  simp only [List.nil_append, List.length_nil, Nat.zero_add] at hskip
  simp only [List.cons_append, List.nil_append] at hskip ⊢
  rw [hskip, bind_ret]
  have r0 : buf_at (w ++ 0x3C :: 0x72 :: 0x73 :: 0x73 :: rest) w.length = Outcome.ret 0x3C := by
    rw [buf_at_append_length]; rfl
  have r1 : buf_at (w ++ 0x3C :: 0x72 :: 0x73 :: 0x73 :: rest) (w.length + 1) =
      Outcome.ret 0x72 := by
    rw [buf_at_append_right]; rfl
  have r2 : buf_at (w ++ 0x3C :: 0x72 :: 0x73 :: 0x73 :: rest) (w.length + 1 + 1) =
      Outcome.ret 0x73 := by
    rw [Nat.add_assoc, buf_at_append_right]; rfl
  have r3 : buf_at (w ++ 0x3C :: 0x72 :: 0x73 :: 0x73 :: rest) (w.length + 1 + 2) =
      Outcome.ret 0x73 := by
    rw [Nat.add_assoc, buf_at_append_right]; rfl
  simp only [byte_is, byte_is_not, r0, r1, r2, r3, bind_ret, and_then_ret, or_else_ret]
  rfl

theorem feed_leading_white_space_witness :
    "text/html" ∉ plain_text_variants ∧
    (∀ b ∈ ([0x09, 0x0A, 0x0D, 0x20] : List Nat), is_feed_ws b = true) ∧
    sniff false (some "text/html") "text/html"
      ([0x09, 0x0A, 0x0D, 0x20] ++ (bytes "<rss" ++ bytes " version=")) none =
      Outcome.ret "application/rss+xml" :=
  ⟨by decide, by decide,
    feed_leading_white_space false "text/html" none (by decide) [0x09, 0x0A, 0x0D, 0x20]
      (bytes " version=") (by decide)⟩

/-! ## The DOCTYPE row -/

theorem land_ff (b : Nat) (h : b < 256) : 0xFF &&& b = b := by
  rw [Nat.and_comm]
  exact Nat.and_pow_two_sub_one_of_lt_two_pow (n := 8) (x := b) h

set_option maxRecDepth 100000 in
theorem land_df_table : ∀ b < 256, ∀ p < 91, 65 ≤ p →
    ((0xDF &&& b == p) = (b == p || b == p + 32)) := by
  decide

/-- Under a mask byte of the shape `case_mask_ok` the masked comparison of a
byte is the comparison up to letter case. -/
theorem masked_byte_eq_case_variant (m p b : Nat) (hmp : case_mask_ok m p = true) (hb : b < 256) :
    (m &&& b == p) =
      (b == p || (0x41 ≤ p && p ≤ 0x5A && b == p + 32) || (0x61 ≤ p && p ≤ 0x7A && b + 32 == p)) := by
  simp only [case_mask_ok, Bool.or_eq_true, Bool.and_eq_true, beq_iff_eq, Bool.not_eq_true',
    decide_eq_true_eq, decide_eq_false_iff_not, not_and, not_le, Bool.and_eq_false_imp] at hmp
  rcases hmp with ⟨⟨hm, hu⟩, hl⟩ | ⟨⟨hm, h1⟩, h2⟩
  · subst hm
    rw [land_ff b hb]
    have e1 : (decide (0x41 ≤ p) && decide (p ≤ 0x5A)) = false := by
      simp only [Bool.and_eq_false_imp, decide_eq_true_eq, decide_eq_false_iff_not, not_le]
      exact hu
    have e2 : (decide (0x61 ≤ p) && decide (p ≤ 0x7A)) = false := by
      simp only [Bool.and_eq_false_imp, decide_eq_true_eq, decide_eq_false_iff_not, not_le]
      exact hl
    rw [e1, e2]
    simp
  · subst hm
    rw [land_df_table b hb p (by omega) h1]
    have e1 : (decide (0x41 ≤ p) && decide (p ≤ 0x5A)) = true := by simp [h1, h2]
    have e2 : (decide (0x61 ≤ p) && decide (p ≤ 0x7A)) = false := by
      simp only [Bool.and_eq_false_imp, decide_eq_true_eq, decide_eq_false_iff_not, not_le]
      intro; omega
    rw [e1, e2]
    simp

/-- For masks of the shape `case_masks_ok` the masked comparison of the start
of a buffer of bytes with the pattern is the comparison up to letter case of
its first bytes, as many as the pattern has. -/
theorem masked_eq_iff_case_variant : ∀ (mask pattern buffer : List Nat),
    case_masks_ok mask pattern = true → (∀ b ∈ buffer, b < 256) →
    (masked_eq mask pattern buffer = true ↔
      pattern.length ≤ buffer.length ∧
        ascii_case_variant (buffer.take pattern.length) pattern = true)
  | [], [], _, _, _ => by simp [masked_eq, ascii_case_variant]
  | [], _ :: _, _, h, _ => by simp [case_masks_ok] at h
  | _ :: _, [], _, h, _ => by simp [case_masks_ok] at h
  | _ :: _, _ :: _, [], _, _ => by simp [masked_eq]
  | m :: ms, p :: ps, b :: bs, h, hb => by
    simp only [case_masks_ok, Bool.and_eq_true] at h
    have ih := masked_eq_iff_case_variant ms ps bs h.2
      (fun x hx => hb x (List.mem_cons_of_mem _ hx))
    have hbyte := masked_byte_eq_case_variant m p b h.1 (hb b (List.mem_cons_self _ _))
    simp only [masked_eq, List.length_cons, List.take_succ_cons, ascii_case_variant,
      Bool.and_eq_true, hbyte, ih, Nat.add_le_add_iff_right]
    tauto

/-- C19: on a buffer of bytes the first table row returns `text/html` exactly
when the buffer has at least 14 bytes and its first 14 bytes spell
`<!DOCTYPE HTML` up to the case of the letters (`<`, `!` and the space
compared exactly), and is only skipped otherwise; so with the declared type
absent every buffer that begins with such a spelling is classified
`text/html`. -/
theorem doctype_rule (buffer : List Nat) (hbytes : ∀ b ∈ buffer, b < 256)
    (char_signed : Bool) (hdr : String) (gio_guess : Option String) :
    (sniff_unknown_rows buffer false types_table =
      if 14 ≤ buffer.length ∧ ascii_case_variant (buffer.take 14) (bytes "<!DOCTYPE HTML") = true
      then Outcome.ret (some "text/html")
      else sniff_unknown_rows buffer false types_table.tail) ∧
    (14 ≤ buffer.length ∧ ascii_case_variant (buffer.take 14) (bytes "<!DOCTYPE HTML") = true →
      sniff char_signed none hdr buffer gio_guess = Outcome.ret "text/html") := by
  have hwalk : sniff_unknown_rows buffer false types_table =
      if 14 ≤ buffer.length ∧ ascii_case_variant (buffer.take 14) (bytes "<!DOCTYPE HTML") = true
      then Outcome.ret (some "text/html")
      else sniff_unknown_rows buffer false types_table.tail := by
    have hiff := masked_eq_iff_case_variant
      [0xFF, 0xFF, 0xDF, 0xDF, 0xDF, 0xDF, 0xDF, 0xDF, 0xDF, 0xFF, 0xDF, 0xDF, 0xDF, 0xDF]
      [0x3C, 0x21, 0x44, 0x4F, 0x43, 0x54, 0x59, 0x50, 0x45, 0x20, 0x48, 0x54, 0x4D, 0x4C]
      buffer (by decide) hbytes
    have e : bytes "<!DOCTYPE HTML" =
        [0x3C, 0x21, 0x44, 0x4F, 0x43, 0x54, 0x59, 0x50, 0x45, 0x20, 0x48, 0x54, 0x4D, 0x4C] := by
      decide
    rw [e]
    simp only [types_table, List.tail_cons]
    rw [rows_exact_step _ _ _ _ (by rfl) (by rfl) (by rfl) (by rfl) (by decide)]
    simp only [List.length_cons, List.length_nil] at hiff
    by_cases hm : masked_eq
        [0xFF, 0xFF, 0xDF, 0xDF, 0xDF, 0xDF, 0xDF, 0xDF, 0xDF, 0xFF, 0xDF, 0xDF, 0xDF, 0xDF]
        [0x3C, 0x21, 0x44, 0x4F, 0x43, 0x54, 0x59, 0x50, 0x45, 0x20, 0x48, 0x54, 0x4D, 0x4C]
        buffer = true
    · rw [if_pos hm, if_pos (hiff.1 hm)]
    · rw [if_neg hm, if_neg (fun h => hm (hiff.2 h))]
  refine ⟨hwalk, ?_⟩
  intro hcond
  rw [sniff, sniff_unknown, hwalk, if_pos hcond]
  rfl

theorem doctype_rule_witness :
    (∀ b ∈ bytes "<!doctype html><p>", b < 256) ∧
    sniff false none "" (bytes "<!doctype html><p>") none = Outcome.ret "text/html" :=
  ⟨by decide,
    (doctype_rule (bytes "<!doctype html><p>") (by decide) false "" none).2
      ⟨by decide, by decide⟩⟩

/-! ## The flag `for_text_or_binary` -/

theorem g_ascii_strcasecmp_eq_refl (s : String) : g_ascii_strcasecmp_eq s s = true := by
  simp [g_ascii_strcasecmp_eq]

theorem scriptable_row_type (row : SoupContentSnifferPattern) (hrow : row ∈ types_table)
    (hs : row.scriptable = true) : is_scriptable_type row.sniffed_type = true := by
  rw [is_scriptable_type, List.any_eq_true]
  exact ⟨row, hrow, by rw [hs, g_ascii_strcasecmp_eq_refl]; rfl⟩

theorem filter_gio_guess_keep (g : String) (h : is_scriptable_type g = false) :
    filter_gio_guess true (some g) = some g := by
  have e : types_table.any (fun type_row =>
      g_ascii_strcasecmp_eq type_row.sniffed_type g && type_row.scriptable) = false := by
    rw [← h, is_scriptable_type]
    congr 1
    funext row
    simp only [g_ascii_strcasecmp_eq]
    rw [Bool.and_comm]
    congr 1
    exact Bool.beq_comm
  simp [filter_gio_guess, e]

/-- A table walk with scriptable rows allowed that ends without a scriptable
type ends the same way when they are skipped. -/
theorem rows_flag_agree (resource : List Nat) :
    ∀ (rows : List SoupContentSnifferPattern) (r : Option String),
      (∀ row ∈ rows, row ∈ types_table) →
      sniff_unknown_rows resource false rows = Outcome.ret r →
      (∀ t, r = some t → is_scriptable_type t = false) →
      sniff_unknown_rows resource true rows = Outcome.ret r
  | [], r, _, h, _ => by
    rw [sniff_unknown_rows] at h ⊢
    exact h
  | row :: rows, r, hsub, h, hr => by
    have hmem : row ∈ types_table := hsub row (List.mem_cons_self _ _)
    have hok := types_table_ok row hmem
    have ih := fun h2 => rows_flag_agree resource rows r
      (fun x hx => hsub x (List.mem_cons_of_mem _ hx)) h2 hr
    by_cases hws : row.has_ws = true
    · have hscr : row.scriptable = true := by simpa [row_ok, hws] using hok
      rw [rows_skip_step _ _ _ _ (by rw [hscr]; rfl)]
      apply ih
      rw [sniff_unknown_rows] at h
      simp only [Bool.false_and, Bool.false_eq_true, if_false, hws, if_true] at h
      cases hloop : ws_row_loop row resource (resource_length resource)
          (ws_row_fuel row (resource_length resource)) 0 0 with
      | outOfBounds => rw [hloop] at h; simp at h
      | outOfFuel => rw [hloop] at h; simp at h
      | ret st =>
        rw [hloop, bind_ret] at h
        split at h
        · exact h
        · split at h
          · exfalso
            have e : r = some row.sniffed_type := by
              injection h with h'; exact h'.symm
            have := hr _ e
            rw [scriptable_row_type row hmem hscr] at this
            exact Bool.noConfusion this
          · exact h
    · have hws2 : row.has_ws = false := by simpa using hws
      simp only [row_ok, hws2, Bool.false_eq_true, if_false, Bool.and_eq_true, beq_iff_eq,
        decide_eq_true_eq] at hok
      rw [rows_exact_step _ _ _ _ (by rfl) hws2 hok.1.1 hok.1.2 hok.2] at h
      by_cases hm : masked_eq row.mask row.pattern resource = true
      · rw [if_pos hm] at h
        have e : r = some row.sniffed_type := by
          injection h with h'; exact h'.symm
        have hns : row.scriptable = false := by
          by_contra hc
          have hs : row.scriptable = true := by simpa using hc
          have := hr _ e
          rw [scriptable_row_type row hmem hs] at this
          exact Bool.noConfusion this
        rw [rows_exact_step _ _ _ _ (by rw [hns]; rfl) hws2 hok.1.1 hok.1.2 hok.2, if_pos hm, e]
      · rw [if_neg hm] at h
        by_cases hs : row.scriptable = true
        · rw [rows_skip_step _ _ _ _ (by rw [hs]; rfl)]
          exact ih h
        · have hns : row.scriptable = false := by simpa using hs
          rw [rows_exact_step _ _ _ _ (by rw [hns]; rfl) hws2 hok.1.1 hok.1.2 hok.2, if_neg hm]
          exact ih h

/-- C20: when `sniff_unknown` with scriptable rows allowed returns a type that
is not, ignoring ASCII case, the `sniffed_type` of a scriptable table row, then
on the same buffer and oracle answer `sniff_unknown` with the flag
`for_text_or_binary` set returns exactly the same type. -/
theorem flag_only_removes_scriptable (buffer : List Nat) (gio_guess : Option String) (t : String)
    (hfalse : sniff_unknown buffer gio_guess false = Outcome.ret t)
    (hsafe : is_scriptable_type t = false) :
    sniff_unknown buffer gio_guess true = Outcome.ret t := by
  rw [sniff_unknown] at hfalse
  cases hrows : sniff_unknown_rows buffer false types_table with
  | outOfBounds => rw [hrows] at hfalse; simp at hfalse
  | outOfFuel => rw [hrows] at hfalse; simp at hfalse
  | ret r =>
    rw [hrows, bind_ret] at hfalse
    cases r with
    | some t2 =>
      have e : t2 = t := by
        simp only [Outcome.ret.injEq] at hfalse; exact hfalse
      subst e
      have := rows_flag_agree buffer types_table (some t2) (fun _ h => h) hrows
        (fun x hx => by
          have : t2 = x := by simpa using hx
          rw [← this]; exact hsafe)
      rw [sniff_unknown, this, bind_ret]
    | none =>
      have hwalk := rows_flag_agree buffer types_table none (fun _ h => h) hrows
        (fun x hx => by simp at hx)
      rw [sniff_unknown, hwalk, bind_ret]
      cases gio_guess with
      | none => exact hfalse
      | some g =>
        have e : g = t := by
          simp only [filter_gio_guess, Bool.false_and, Bool.false_eq_true, if_false,
            Outcome.ret.injEq] at hfalse
          exact hfalse
        subst e
        simp only [filter_gio_guess_keep g hsafe]

theorem flag_only_removes_scriptable_witness :
    sniff_unknown (bytes "GIF89a<html>") (some "text/html") false = Outcome.ret "image/gif" ∧
    is_scriptable_type "image/gif" = false ∧
    sniff_unknown (bytes "GIF89a<html>") (some "text/html") true = Outcome.ret "image/gif" :=
  ⟨by decide, by decide,
    flag_only_removes_scriptable (bytes "GIF89a<html>") (some "text/html") "image/gif"
      (by decide) (by decide)⟩

/-! ## The iteration budget of the feed scanner -/

theorem buf_at_ret_lt (resource : List Nat) (i r : Nat) (h : buf_at resource i = Outcome.ret r) :
    i < resource.length := by
  by_contra hc
  have hnone : resource[i]? = none := List.getElem?_eq_none (by omega)
  simp [buf_at, hnone] at h

theorem bind_ne_outOfFuel {α β : Type} (x : Outcome α) (f : α → Outcome β)
    (hx : x ≠ Outcome.outOfFuel) (hf : ∀ a, x = Outcome.ret a → f a ≠ Outcome.outOfFuel) :
    Outcome.bind x f ≠ Outcome.outOfFuel := by
  cases x with
  | ret a => exact hf a rfl
  | outOfBounds => simp
  | outOfFuel => exact absurd rfl hx

theorem bind_eq_ret {α β : Type} (x : Outcome α) (f : α → Outcome β) (b : β)
    (h : Outcome.bind x f = Outcome.ret b) : ∃ a, x = Outcome.ret a ∧ f a = Outcome.ret b := by
  cases x with
  | ret a => exact ⟨a, rfl, h⟩
  | outOfBounds => simp at h
  | outOfFuel => simp at h

theorem byte_is_ne_outOfFuel (resource : List Nat) (i k : Nat) :
    byte_is resource i k ≠ Outcome.outOfFuel :=
  bind_ne_outOfFuel _ _ (buf_at_ne_outOfFuel _ _) (fun _ _ => by simp)

theorem byte_is_not_ne_outOfFuel (resource : List Nat) (i k : Nat) :
    byte_is_not resource i k ≠ Outcome.outOfFuel :=
  bind_ne_outOfFuel _ _ (buf_at_ne_outOfFuel _ _) (fun _ _ => by simp)

theorem byte_is_ret_lt (resource : List Nat) (i k : Nat) (b : Bool)
    (h : byte_is resource i k = Outcome.ret b) : i < resource.length := by
  obtain ⟨r, hr, _⟩ := bind_eq_ret _ _ _ h
  exact buf_at_ret_lt _ _ _ hr

theorem byte_is_not_ret_lt (resource : List Nat) (i k : Nat) (b : Bool)
    (h : byte_is_not resource i k = Outcome.ret b) : i < resource.length := by
  obtain ⟨r, hr, _⟩ := bind_eq_ret _ _ _ h
  exact buf_at_ret_lt _ _ _ hr

theorem and_then_ne_outOfFuel (a b : Outcome Bool) (ha : a ≠ Outcome.outOfFuel)
    (hb : b ≠ Outcome.outOfFuel) : and_then a b ≠ Outcome.outOfFuel :=
  bind_ne_outOfFuel _ _ ha (fun x _ => by cases x <;> simp [hb])

theorem or_else_ne_outOfFuel (a b : Outcome Bool) (ha : a ≠ Outcome.outOfFuel)
    (hb : b ≠ Outcome.outOfFuel) : or_else a b ≠ Outcome.outOfFuel :=
  bind_ne_outOfFuel _ _ ha (fun x _ => by cases x <;> simp [hb])

theorem and_then_ret_first (a b : Outcome Bool) (x : Bool) (h : and_then a b = Outcome.ret x) :
    ∃ y, a = Outcome.ret y := by
  obtain ⟨y, hy, _⟩ := bind_eq_ret _ _ _ h
  exact ⟨y, hy⟩

theorem or_else_ret_first (a b : Outcome Bool) (x : Bool) (h : or_else a b = Outcome.ret x) :
    ∃ y, a = Outcome.ret y := by
  obtain ⟨y, hy, _⟩ := bind_eq_ret _ _ _ h
  exact ⟨y, hy⟩

/-- The loop at `look_for_tag` ends within its budget, at an index inside the buffer. -/
theorem skip_ws_loop_bounds (resource : List Nat) :
    ∀ fuel pos, 0 < fuel → resource.length < pos + fuel →
      skip_ws_loop resource fuel pos ≠ Outcome.outOfFuel ∧
        ∀ p, skip_ws_loop resource fuel pos = Outcome.ret p → pos ≤ p ∧ p < resource.length
  | 0, _, h, _ => by omega
  | fuel + 1, pos, _, hlen => by
    rw [skip_ws_loop]
    have hchain : (or_else (byte_is resource pos 0x09)
        (or_else (byte_is resource pos 0x20)
        (or_else (byte_is resource pos 0x0A) (byte_is resource pos 0x0D)))) ≠
        Outcome.outOfFuel :=
      or_else_ne_outOfFuel _ _ (byte_is_ne_outOfFuel _ _ _)
        (or_else_ne_outOfFuel _ _ (byte_is_ne_outOfFuel _ _ _)
          (or_else_ne_outOfFuel _ _ (byte_is_ne_outOfFuel _ _ _) (byte_is_ne_outOfFuel _ _ _)))
    have hrec : ∀ ws, (or_else (byte_is resource pos 0x09)
        (or_else (byte_is resource pos 0x20)
        (or_else (byte_is resource pos 0x0A) (byte_is resource pos 0x0D)))) = Outcome.ret ws →
        pos < resource.length := by
      intro ws h
      obtain ⟨y, hy⟩ := or_else_ret_first _ _ _ h
      exact byte_is_ret_lt _ _ _ _ hy
    constructor
    · apply bind_ne_outOfFuel _ _ hchain
      intro ws hws
      have hpos := hrec ws hws
      cases ws with
      | true =>
        simp only [if_true]
        exact (skip_ws_loop_bounds resource fuel (pos + 1) (by omega) (by omega)).1
      | false => simp
    · intro p hp
      obtain ⟨ws, hws, hres⟩ := bind_eq_ret _ _ _ hp
      have hpos := hrec ws hws
      cases ws with
      | true =>
        simp only [if_true] at hres
        have := (skip_ws_loop_bounds resource fuel (pos + 1) (by omega) (by omega)).2 p hres
        omega
      | false =>
        simp only [Bool.false_eq_true, if_false, Outcome.ret.injEq] at hres
        omega

/-- The loop of the comment branch ends within its budget, inside the buffer. -/
theorem comment_loop_bounds (resource : List Nat) :
    ∀ fuel pos, 0 < fuel → resource.length < pos + fuel →
      comment_loop resource fuel pos ≠ Outcome.outOfFuel ∧
        ∀ p, comment_loop resource fuel pos = Outcome.ret p → pos ≤ p ∧ p < resource.length
  | 0, _, h, _ => by omega
  | fuel + 1, pos, _, hlen => by
    rw [comment_loop]
    have hchain : (and_then (byte_is_not resource pos 0x2D)
        (and_then (byte_is_not resource (pos + 1) 0x2D) (byte_is_not resource (pos + 2) 0x3E))) ≠
        Outcome.outOfFuel :=
      and_then_ne_outOfFuel _ _ (byte_is_not_ne_outOfFuel _ _ _)
        (and_then_ne_outOfFuel _ _ (byte_is_not_ne_outOfFuel _ _ _)
          (byte_is_not_ne_outOfFuel _ _ _))
    have hrec : ∀ go, (and_then (byte_is_not resource pos 0x2D)
        (and_then (byte_is_not resource (pos + 1) 0x2D) (byte_is_not resource (pos + 2) 0x3E))) =
        Outcome.ret go → pos < resource.length := by
      intro go h
      obtain ⟨y, hy⟩ := and_then_ret_first _ _ _ h
      exact byte_is_not_ret_lt _ _ _ _ hy
    constructor
    · apply bind_ne_outOfFuel _ _ hchain
      intro go hgo
      have hpos := hrec go hgo
      cases go with
      | true =>
        simp only [if_true]
        exact (comment_loop_bounds resource fuel (pos + 1) (by omega) (by omega)).1
      | false => simp
    · intro p hp
      obtain ⟨go, hgo, hres⟩ := bind_eq_ret _ _ _ hp
      have hpos := hrec go hgo
      cases go with
      | true =>
        simp only [if_true] at hres
        have := (comment_loop_bounds resource fuel (pos + 1) (by omega) (by omega)).2 p hres
        omega
      | false =>
        simp only [Bool.false_eq_true, if_false, Outcome.ret.injEq] at hres
        omega

/-- The loop of the `!` branch ends within its budget, inside the buffer. -/
theorem decl_loop_bounds (resource : List Nat) :
    ∀ fuel pos, 0 < fuel → resource.length < pos + fuel →
      decl_loop resource fuel pos ≠ Outcome.outOfFuel ∧
        ∀ p, decl_loop resource fuel pos = Outcome.ret p → pos < p ∧ p < resource.length
  | 0, _, h, _ => by omega
  | fuel + 1, pos, _, hlen => by
    rw [decl_loop]
    constructor
    · apply bind_ne_outOfFuel _ _ (byte_is_not_ne_outOfFuel _ _ _)
      intro go hgo
      have hpos := byte_is_not_ret_lt _ _ _ _ hgo
      cases go with
      | true =>
        simp only [if_true]
        exact (decl_loop_bounds resource fuel (pos + 1) (by omega) (by omega)).1
      | false => simp
    · intro p hp
      obtain ⟨go, hgo, hres⟩ := bind_eq_ret _ _ _ hp
      have hpos := byte_is_not_ret_lt _ _ _ _ hgo
      cases go with
      | true =>
        simp only [if_true] at hres
        have := (decl_loop_bounds resource fuel (pos + 1) (by omega) (by omega)).2 p hres
        omega
      | false =>
        simp only [Bool.false_eq_true, if_false, Outcome.ret.injEq] at hres
        omega

/-- The loop of the `?` branch ends within its budget, inside the buffer. -/
theorem pi_loop_bounds (resource : List Nat) :
    ∀ fuel pos, 0 < fuel → resource.length < pos + fuel →
      pi_loop resource fuel pos ≠ Outcome.outOfFuel ∧
        ∀ p, pi_loop resource fuel pos = Outcome.ret p → pos < p ∧ p < resource.length
  | 0, _, h, _ => by omega
  | fuel + 1, pos, _, hlen => by
    rw [pi_loop]
    have hchain : (and_then (byte_is_not resource (pos + 1) 0x3F)
        (byte_is_not resource (pos + 2) 0x3E)) ≠ Outcome.outOfFuel :=
      and_then_ne_outOfFuel _ _ (byte_is_not_ne_outOfFuel _ _ _) (byte_is_not_ne_outOfFuel _ _ _)
    have hrec : ∀ go, (and_then (byte_is_not resource (pos + 1) 0x3F)
        (byte_is_not resource (pos + 2) 0x3E)) = Outcome.ret go → pos + 1 < resource.length := by
      intro go h
      obtain ⟨y, hy⟩ := and_then_ret_first _ _ _ h
      exact byte_is_not_ret_lt _ _ _ _ hy
    constructor
    · apply bind_ne_outOfFuel _ _ hchain
      intro go hgo
      have hpos := hrec go hgo
      cases go with
      | true =>
        simp only [if_true]
        exact (pi_loop_bounds resource fuel (pos + 1) (by omega) (by omega)).1
      | false => simp
    · intro p hp
      obtain ⟨go, hgo, hres⟩ := bind_eq_ret _ _ _ hp
      have hpos := hrec go hgo
      cases go with
      | true =>
        simp only [if_true] at hres
        have := (pi_loop_bounds resource fuel (pos + 1) (by omega) (by omega)).2 p hres
        omega
      | false =>
        simp only [Bool.false_eq_true, if_false, Outcome.ret.injEq] at hres
        omega

/-- The scanner from `look_for_tag` ends within its budget, and what it returns
is one of its three constants. -/
theorem look_for_tag_outcome (resource : List Nat) :
    ∀ fuel pos, 0 < fuel → resource.length < pos + fuel →
      look_for_tag resource fuel pos ≠ Outcome.outOfFuel ∧
        ∀ t, look_for_tag resource fuel pos = Outcome.ret t →
          t = "text/html" ∨ t = "application/rss+xml" ∨ t = "application/atom+xml"
  | 0, _, h, _ => by omega
  | fuel + 1, pos0, _, hlen => by
    have hscan : 0 < scan_fuel resource := by simp [scan_fuel]
    have hws := skip_ws_loop_bounds resource (scan_fuel resource) pos0 hscan
      (by simp only [scan_fuel]; omega)
    have hcomment := fun pos => comment_loop_bounds resource (scan_fuel resource) pos hscan
      (by simp only [scan_fuel]; omega)
    have hdecl := fun pos => decl_loop_bounds resource (scan_fuel resource) pos hscan
      (by simp only [scan_fuel]; omega)
    have hpi := fun pos => pi_loop_bounds resource (scan_fuel resource) pos hscan
      (by simp only [scan_fuel]; omega)
    have ih := fun pos (h : pos0 < pos ∧ 0 < fuel) =>
      look_for_tag_outcome resource fuel pos h.2 (by omega)
    rw [look_for_tag]
    constructor
    · apply bind_ne_outOfFuel _ _ hws.1
      intro pos1 hpos1
      have hb1 := hws.2 pos1 hpos1
      apply bind_ne_outOfFuel _ _ (byte_is_not_ne_outOfFuel _ _ _)
      intro not_lt _
      cases not_lt with
      | true => simp
      | false =>
        simp only [Bool.false_eq_true, if_false]
        apply bind_ne_outOfFuel _ _
          (or_else_ne_outOfFuel _ _ (byte_is_ne_outOfFuel _ _ _)
            (or_else_ne_outOfFuel _ _ (byte_is_ne_outOfFuel _ _ _) (byte_is_ne_outOfFuel _ _ _)))
        intro comment _
        cases comment with
        | true =>
          simp only [if_true]
          apply bind_ne_outOfFuel _ _ (hcomment _).1
          intro pos2 hpos2
          have hb2 := (hcomment _).2 pos2 hpos2
          exact (ih pos2 (by omega)).1
        | false =>
          simp only [Bool.false_eq_true, if_false]
          apply bind_ne_outOfFuel _ _ (byte_is_ne_outOfFuel _ _ _)
          intro bang _
          cases bang with
          | true =>
            simp only [if_true]
            apply bind_ne_outOfFuel _ _ (hdecl _).1
            intro pos2 hpos2
            have hb2 := (hdecl _).2 pos2 hpos2
            exact (ih (pos2 + 1) (by omega)).1
          | false =>
            simp only [Bool.false_eq_true, if_false]
            apply bind_ne_outOfFuel _ _ (byte_is_ne_outOfFuel _ _ _)
            intro question _
            cases question with
            | true =>
              simp only [if_true]
              apply bind_ne_outOfFuel _ _ (hpi _).1
              intro pos2 hpos2
              have hb2 := (hpi _).2 pos2 hpos2
              exact (ih (pos2 + 2) (by omega)).1
            | false =>
              simp only [Bool.false_eq_true, if_false]
              apply bind_ne_outOfFuel _ _
                (and_then_ne_outOfFuel _ _ (byte_is_ne_outOfFuel _ _ _)
                  (and_then_ne_outOfFuel _ _ (byte_is_ne_outOfFuel _ _ _)
                    (byte_is_ne_outOfFuel _ _ _)))
              intro rss _
              cases rss with
              | true => simp
              | false =>
                simp only [Bool.false_eq_true, if_false]
                apply bind_ne_outOfFuel _ _
                  (and_then_ne_outOfFuel _ _ (byte_is_ne_outOfFuel _ _ _)
                    (and_then_ne_outOfFuel _ _ (byte_is_ne_outOfFuel _ _ _)
                      (and_then_ne_outOfFuel _ _ (byte_is_ne_outOfFuel _ _ _)
                        (byte_is_ne_outOfFuel _ _ _))))
                intro feed _
                cases feed <;> simp
    · intro t ht
      obtain ⟨pos1, hpos1, ht⟩ := bind_eq_ret _ _ _ ht
      have hb1 := hws.2 pos1 hpos1
      obtain ⟨not_lt, _, ht⟩ := bind_eq_ret _ _ _ ht
      cases not_lt with
      | true =>
        simp only [if_true, Outcome.ret.injEq] at ht
        exact Or.inl ht.symm
      | false =>
        simp only [Bool.false_eq_true, if_false] at ht
        obtain ⟨comment, _, ht⟩ := bind_eq_ret _ _ _ ht
        cases comment with
        | true =>
          simp only [if_true] at ht
          obtain ⟨pos2, hpos2, ht⟩ := bind_eq_ret _ _ _ ht
          have hb2 := (hcomment _).2 pos2 hpos2
          exact (ih pos2 (by omega)).2 t ht
        | false =>
          simp only [Bool.false_eq_true, if_false] at ht
          obtain ⟨bang, _, ht⟩ := bind_eq_ret _ _ _ ht
          cases bang with
          | true =>
            simp only [if_true] at ht
            obtain ⟨pos2, hpos2, ht⟩ := bind_eq_ret _ _ _ ht
            have hb2 := (hdecl _).2 pos2 hpos2
            exact (ih (pos2 + 1) (by omega)).2 t ht
          | false =>
            simp only [Bool.false_eq_true, if_false] at ht
            obtain ⟨question, _, ht⟩ := bind_eq_ret _ _ _ ht
            cases question with
            | true =>
              simp only [if_true] at ht
              obtain ⟨pos2, hpos2, ht⟩ := bind_eq_ret _ _ _ ht
              have hb2 := (hpi _).2 pos2 hpos2
              exact (ih (pos2 + 2) (by omega)).2 t ht
            | false =>
              simp only [Bool.false_eq_true, if_false] at ht
              obtain ⟨rss, _, ht⟩ := bind_eq_ret _ _ _ ht
              cases rss with
              | true =>
                simp only [if_true, Outcome.ret.injEq] at ht
                exact Or.inr (Or.inl ht.symm)
              | false =>
                simp only [Bool.false_eq_true, if_false] at ht
                obtain ⟨feed, _, ht⟩ := bind_eq_ret _ _ _ ht
                cases feed with
                | true =>
                  simp only [if_true, Outcome.ret.injEq] at ht
                  exact Or.inr (Or.inr ht.symm)
                | false =>
                  simp only [Bool.false_eq_true, if_false, Outcome.ret.injEq] at ht
                  exact Or.inl ht.symm

/-- The function `sniff_feed_or_html` ends within its budget, and what it
returns is one of its three constants. -/
theorem sniff_feed_or_html_outcome (char_signed : Bool) (resource : List Nat) :
    sniff_feed_or_html char_signed resource ≠ Outcome.outOfFuel ∧
      ∀ t, sniff_feed_or_html char_signed resource = Outcome.ret t →
        t = "text/html" ∨ t = "application/rss+xml" ∨ t = "application/atom+xml" := by
  have hbind : ∀ (x : Outcome Nat) (k : Nat), x ≠ Outcome.outOfFuel →
      (Outcome.bind x fun r => Outcome.ret (char_eq_int char_signed r k)) ≠ Outcome.outOfFuel :=
    fun x k hx => bind_ne_outOfFuel _ _ hx (fun _ _ => by simp)
  have hl := fun pos => look_for_tag_outcome resource (scan_fuel resource) pos
    (by simp [scan_fuel]) (by simp only [scan_fuel]; omega)
  rw [sniff_feed_or_html]
  constructor
  · apply bind_ne_outOfFuel _ _
      (and_then_ne_outOfFuel _ _ (hbind _ _ (buf_at_ne_outOfFuel _ _))
        (and_then_ne_outOfFuel _ _ (hbind _ _ (buf_at_ne_outOfFuel _ _))
          (hbind _ _ (buf_at_ne_outOfFuel _ _))))
    intro bom _
    exact (hl _).1
  · intro t ht
    obtain ⟨bom, _, ht⟩ := bind_eq_ret _ _ _ ht
    exact (hl _).2 t ht

/-! ## Results are non-empty strings -/

theorem exact_row_loop_ne_outOfFuel (row : SoupContentSnifferPattern) (resource : List Nat) :
    ∀ n j, exact_row_loop row resource n j ≠ Outcome.outOfFuel
  | 0, _ => by simp [exact_row_loop]
  | n + 1, j => by
    rw [exact_row_loop]
    apply bind_ne_outOfFuel _ _ (cstr_at_ne_outOfFuel _ _)
    intro m _
    apply bind_ne_outOfFuel _ _ (buf_at_ne_outOfFuel _ _)
    intro r _
    apply bind_ne_outOfFuel _ _ (cstr_at_ne_outOfFuel _ _)
    intro p _
    split
    · simp
    · exact exact_row_loop_ne_outOfFuel row resource n (j + 1)

/-- The table walk ends within its budget, and a type it returns is the
`sniffed_type` of one of the rows. -/
theorem sniff_unknown_rows_outcome (resource : List Nat) (ftb : Bool) :
    ∀ rows : List SoupContentSnifferPattern,
      sniff_unknown_rows resource ftb rows ≠ Outcome.outOfFuel ∧
        ∀ t, sniff_unknown_rows resource ftb rows = Outcome.ret (some t) →
          ∃ row ∈ rows, row.sniffed_type = t
  | [] => by simp [sniff_unknown_rows]
  | row :: rows => by
    have ih := sniff_unknown_rows_outcome resource ftb rows
    have ih2 : ∀ t, sniff_unknown_rows resource ftb rows = Outcome.ret (some t) →
        ∃ r ∈ row :: rows, r.sniffed_type = t := by
      intro t ht
      obtain ⟨r, hr, e⟩ := ih.2 t ht
      exact ⟨r, List.mem_cons_of_mem _ hr, e⟩
    have hfuel := ws_row_loop_fuel_ok row resource (resource_length resource)
      (ws_row_fuel row (resource_length resource)) 0 0 (by simp only [ws_row_fuel]; omega)
    rw [sniff_unknown_rows]
    constructor
    · split
      · exact ih.1
      · split
        · apply bind_ne_outOfFuel _ _ hfuel
          intro st _
          split
          · exact ih.1
          · split
            · simp
            · exact ih.1
        · split
          · exact ih.1
          · apply bind_ne_outOfFuel _ _ (exact_row_loop_ne_outOfFuel _ _ _ _)
            intro j _
            split
            · simp
            · exact ih.1
    · intro t ht
      split at ht
      · exact ih2 t ht
      · split at ht
        · obtain ⟨st, _, ht⟩ := bind_eq_ret _ _ _ ht
          split at ht
          · exact ih2 t ht
          · split at ht
            · simp only [Outcome.ret.injEq, Option.some.injEq] at ht
              exact ⟨row, List.mem_cons_self _ _, ht⟩
            · exact ih2 t ht
        · split at ht
          · exact ih2 t ht
          · obtain ⟨j, _, ht⟩ := bind_eq_ret _ _ _ ht
            split at ht
            · simp only [Outcome.ret.injEq, Option.some.injEq] at ht
              exact ⟨row, List.mem_cons_self _ _, ht⟩
            · exact ih2 t ht

theorem types_table_types_nonempty : ∀ row ∈ types_table, row.sniffed_type ≠ "" := by
  decide

theorem filter_gio_guess_sub (ftb : Bool) (gio_guess : Option String) (g : String)
    (h : filter_gio_guess ftb gio_guess = some g) : gio_guess = some g := by
  cases gio_guess with
  | none => simp [filter_gio_guess] at h
  | some g0 =>
    simp only [filter_gio_guess] at h
    split at h
    · simp at h
    · exact h

/-- The function `sniff_unknown` ends within its budget, and a type it returns
is not the empty string unless the oracle guessed the empty string. -/
theorem sniff_unknown_outcome (resource : List Nat) (gio_guess : Option String) (ftb : Bool)
    (hgio : gio_guess ≠ some "") :
    sniff_unknown resource gio_guess ftb ≠ Outcome.outOfFuel ∧
      ∀ t, sniff_unknown resource gio_guess ftb = Outcome.ret t → t ≠ "" := by
  have hrows := sniff_unknown_rows_outcome resource ftb types_table
  rw [sniff_unknown]
  constructor
  · apply bind_ne_outOfFuel _ _ hrows.1
    intro hit _
    cases hit with
    | some t => simp
    | none => cases filter_gio_guess ftb gio_guess <;> simp
  · intro t ht
    obtain ⟨hit, hhit, ht⟩ := bind_eq_ret _ _ _ ht
    cases hit with
    | some t2 =>
      simp only [Outcome.ret.injEq] at ht
      obtain ⟨row, hrow, e⟩ := hrows.2 t2 hhit
      rw [← ht, ← e]
      exact types_table_types_nonempty row hrow
    | none =>
      simp only at ht
      cases hf : filter_gio_guess ftb gio_guess with
      | some g =>
        rw [hf] at ht
        simp only [Outcome.ret.injEq] at ht
        have := filter_gio_guess_sub _ _ _ hf
        intro he
        rw [ht, he] at this
        exact hgio this
      | none =>
        rw [hf] at ht
        simp only [Outcome.ret.injEq] at ht
        rw [← ht]
        decide

/-- The function `sniff_text_or_binary` returns a type, and not the empty
string unless the oracle guessed the empty string. -/
theorem sniff_text_or_binary_nonempty (char_signed : Bool) (buffer : List Nat)
    (gio_guess : Option String) (hgio : gio_guess ≠ some "") :
    ∃ t, sniff_text_or_binary char_signed buffer gio_guess = Outcome.ret t ∧ t ≠ "" := by
  rw [sniff_text_or_binary]
  have hbom : ∃ b, (if resource_length buffer ≥ 4 then bom_test char_signed buffer
      else Outcome.ret false) = Outcome.ret b := by
    by_cases h4 : resource_length buffer ≥ 4
    · rw [if_pos h4]
      exact bom_test_total _ _ (by have := resource_length_le buffer; omega)
    · rw [if_neg h4]; exact ⟨false, rfl⟩
  obtain ⟨b, hb⟩ := hbom
  rw [hb, bind_ret]
  cases b with
  | true => exact ⟨"text/plain", by simp, by decide⟩
  | false =>
    rw [looks_binary_loop_spec _ _ _ (by have := resource_length_le buffer; omega), bind_ret]
    simp only [Bool.false_eq_true, if_false]
    split
    · exact ⟨"text/plain", rfl, by decide⟩
    · obtain ⟨t, ht, _⟩ := sniff_unknown_text_or_binary_safe buffer gio_guess
      exact ⟨t, ht, (sniff_unknown_outcome buffer gio_guess true hgio).2 t ht⟩

/-- The function `sniff_images` returns a type, and not the empty string unless
the declared type is the empty string. -/
theorem sniff_images_nonempty (buffer : List Nat) (ct : String) (hct : ct ≠ "") :
    ∃ t, sniff_images buffer ct = Outcome.ret t ∧ t ≠ "" := by
  rw [sniff_images, sniff_images_rows_spec buffer ct types_table types_table_image_rows]
  refine ⟨_, rfl, ?_⟩
  cases hfind : types_table.find? (fun rule =>
      g_str_has_prefix rule.sniffed_type "image/" && rule.pattern.isPrefixOf buffer) with
  | none => exact hct
  | some rule => exact types_table_types_nonempty rule (List.mem_of_find?_eq_some hfind)

/-! ## Short buffers of unknown type -/

theorem types_table_ws_row_shape : ∀ row ∈ types_table, row.has_ws = true →
    ws_row_shape row = true := by
  decide

theorem cstr_at_space (row : SoupContentSnifferPattern) (hshape : ws_row_shape row = true)
    (i : Nat) (h : cstr_at row.pattern i = Outcome.ret 0x20) : i = 0 := by
  simp only [ws_row_shape, Bool.and_eq_true, List.all_eq_true, List.mem_range, Bool.or_eq_true,
    beq_iff_eq, bne_iff_ne, ne_eq] at hshape
  by_cases hi : i < row.pattern.length
  · rw [cstr_at_of_lt _ _ hi] at h
    simp only [Outcome.ret.injEq] at h
    rcases hshape.2 i hi with h0 | h1
    · exact h0
    · exact absurd h h1
  · simp only [cstr_at, if_neg hi] at h
    split at h <;> simp at h

/-- On a buffer no longer than the pattern literal the loop of a white space
row reads inside its arrays and returns. -/
theorem ws_row_loop_short (row : SoupContentSnifferPattern) (resource : List Nat) (rl : Nat)
    (hshape : ws_row_shape row = true) (hrl : rl ≤ row.pattern.length)
    (hres : rl ≤ resource.length) :
    ∀ fuel is ip, ip ≤ is + 1 → (rl - is) + (row.pattern.length + 2 - ip) < fuel →
      ∃ st, ws_row_loop row resource rl fuel is ip = Outcome.ret st
  | 0, _, _, _, h => by omega
  | fuel + 1, is, ip, hinv, hfuel => by
    have hml : row.mask.length = row.pattern.length := by
      simp only [ws_row_shape, Bool.and_eq_true, beq_iff_eq] at hshape
      exact hshape.1.1
    rw [ws_row_loop]
    by_cases hlt : is < rl
    · rw [if_pos hlt]
      have hp : ∃ p, cstr_at row.pattern ip = Outcome.ret p := by
        simp only [cstr_at]
        split
        · exact ⟨_, rfl⟩
        · rw [if_pos (by omega)]; exact ⟨_, rfl⟩
      have hm : ∃ m, cstr_at row.mask ip = Outcome.ret m := by
        simp only [cstr_at]
        split
        · exact ⟨_, rfl⟩
        · rw [if_pos (by omega)]; exact ⟨_, rfl⟩
      obtain ⟨p, hp⟩ := hp
      obtain ⟨m, hm⟩ := hm
      rw [hp, bind_ret, hm, buf_at_of_lt _ _ (by omega)]
      simp only [bind_ret]
      by_cases hsp : p = 0x20
      · have hip : ip = 0 := cstr_at_space row hshape ip (by rw [hp, hsp])
        rw [if_pos hsp]
        split
        · exact ws_row_loop_short row resource rl hshape hrl hres fuel (is + 1) ip
            (by omega) (by omega)
        · exact ws_row_loop_short row resource rl hshape hrl hres fuel is (ip + 1)
            (by omega) (by omega)
      · rw [if_neg hsp]
        split
        · exact ⟨_, rfl⟩
        · exact ws_row_loop_short row resource rl hshape hrl hres fuel (is + 1) (ip + 1)
            (by omega) (by omega)
    · rw [if_neg hlt]; exact ⟨_, rfl⟩

/-- On a buffer of six bytes or less the table walk returns. -/
theorem sniff_unknown_rows_short (resource : List Nat) (ftb : Bool)
    (hshort : resource.length ≤ 6) :
    ∀ rows : List SoupContentSnifferPattern, (∀ row ∈ rows, row ∈ types_table) →
      ∃ r, sniff_unknown_rows resource ftb rows = Outcome.ret r
  | [], _ => ⟨none, rfl⟩
  | row :: rows, hsub => by
    have ih := sniff_unknown_rows_short resource ftb hshort rows
      (fun x hx => hsub x (List.mem_cons_of_mem _ hx))
    have hmem : row ∈ types_table := hsub row (List.mem_cons_self _ _)
    have hok := types_table_ok row hmem
    by_cases hskip : (ftb && row.scriptable) = true
    · rw [rows_skip_step _ _ _ _ hskip]; exact ih
    · have hskip2 : (ftb && row.scriptable) = false := by simpa using hskip
      by_cases hws : row.has_ws = true
      · have hshape := types_table_ws_row_shape row hmem hws
        have h6 : 6 ≤ row.pattern.length := by
          simp only [ws_row_shape, Bool.and_eq_true, decide_eq_true_eq] at hshape
          exact hshape.1.2
        have hrl : resource_length resource ≤ resource.length := resource_length_le resource
        obtain ⟨st, hst⟩ := ws_row_loop_short row resource (resource_length resource) hshape
          (by omega) hrl (ws_row_fuel row (resource_length resource)) 0 0 (by omega)
          (by simp only [ws_row_fuel]; omega)
        rw [sniff_unknown_rows]
        simp only [hskip2, hws, Bool.false_eq_true, if_false, if_true, hst, bind_ret]
        split
        · exact ih
        · split
          · exact ⟨_, rfl⟩
          · exact ih
      · have hws2 : row.has_ws = false := by simpa using hws
        simp only [row_ok, hws2, Bool.false_eq_true, if_false, Bool.and_eq_true, beq_iff_eq,
          decide_eq_true_eq] at hok
        rw [rows_exact_step _ _ _ _ hskip2 hws2 hok.1.1 hok.1.2 hok.2]
        split
        · exact ⟨_, rfl⟩
        · exact ih

/-- On a buffer of six bytes or less `sniff_unknown` returns a type. -/
theorem sniff_unknown_short (resource : List Nat) (gio_guess : Option String) (ftb : Bool)
    (hshort : resource.length ≤ 6) :
    ∃ t, sniff_unknown resource gio_guess ftb = Outcome.ret t := by
  obtain ⟨r, hr⟩ := sniff_unknown_rows_short resource ftb hshort types_table (fun _ h => h)
  rw [sniff_unknown, hr, bind_ret]
  cases r with
  | some t => exact ⟨t, rfl⟩
  | none => cases filter_gio_guess ftb gio_guess <;> exact ⟨_, rfl⟩

/-- C11, counterexample: an empty declared type is returned as it is, and so is
an empty oracle guess on a buffer that no table row matches: the result is the
empty string. -/
theorem empty_type_passes_through :
    sniff false (some "") "" [] none = Outcome.ret "" ∧
    sniff false none "" [] (some "") = Outcome.ret "" := by
  exact ⟨rfl, rfl⟩

/-- C11, amended: for a declared type that is absent or a non-empty string, any
header value, any sample buffer and an oracle answer that is absent or a
non-empty string, `sniff` ends within the budget of its loops and a result it
yields is a non-empty string; it does yield a result for every declared type
that the dispatcher sends neither to `sniff_unknown` with scriptable rows
allowed nor to `sniff_feed_or_html`, and also for the types sent to
`sniff_unknown` when the buffer has six bytes or less (the empty buffer
included). -/
theorem sniff_result_nonempty (char_signed : Bool) (content_type : Option String) (hdr : String)
    (buffer : List Nat) (gio_guess : Option String)
    (hct : content_type ≠ some "") (hgio : gio_guess ≠ some "") :
    (sniff char_signed content_type hdr buffer gio_guess ≠ Outcome.outOfFuel ∧
      ∀ t, sniff char_signed content_type hdr buffer gio_guess = Outcome.ret t → t ≠ "") ∧
    (dispatches_to_scan content_type hdr = false →
      ∃ t, sniff char_signed content_type hdr buffer gio_guess = Outcome.ret t ∧ t ≠ "") ∧
    (dispatches_to_unknown content_type = true → buffer.length ≤ 6 →
      ∃ t, sniff char_signed content_type hdr buffer gio_guess = Outcome.ret t ∧ t ≠ "") := by
  have hunknown := sniff_unknown_outcome buffer gio_guess false hgio
  have hfeed := sniff_feed_or_html_outcome char_signed buffer
  have hshort : buffer.length ≤ 6 →
      ∃ t, sniff_unknown buffer gio_guess false = Outcome.ret t ∧ t ≠ "" := by
    intro h6
    obtain ⟨t, ht⟩ := sniff_unknown_short buffer gio_guess false h6
    exact ⟨t, ht, hunknown.2 t ht⟩
  have total : ∀ o : Outcome String, (∃ t, o = Outcome.ret t ∧ t ≠ "") →
      o ≠ Outcome.outOfFuel ∧ ∀ t, o = Outcome.ret t → t ≠ "" := by
    rintro o ⟨t, rfl, ht⟩
    refine ⟨by simp, ?_⟩
    intro t2 h2
    simp only [Outcome.ret.injEq] at h2
    rw [← h2]; exact ht
  cases content_type with
  | none =>
    refine ⟨hunknown, ?_, fun _ h6 => hshort h6⟩
    intro h
    simp [dispatches_to_scan] at h
  | some ct =>
    have hne : ct ≠ "" := fun h => hct (by rw [h])
    simp only [sniff, dispatches_to_scan, dispatches_to_unknown]
    split
    · exact ⟨hunknown, fun h => by simp at h, fun _ h6 => hshort h6⟩
    · rename_i hnot
      have hnu : ∀ P : Prop, (g_ascii_strcasecmp_eq ct "unknown/unknown" ||
          g_ascii_strcasecmp_eq ct "application/unknown" ||
          g_ascii_strcasecmp_eq ct "*/*") = true → P := fun P h => absurd h hnot
      split
      · exact ⟨total _ ⟨ct, rfl, hne⟩, fun _ => ⟨ct, rfl, hne⟩, fun h _ => hnu _ h⟩
      · split
        · have := sniff_images_nonempty buffer ct hne
          exact ⟨total _ this, fun _ => this, fun h _ => hnu _ h⟩
        · split
          · have := sniff_text_or_binary_nonempty char_signed buffer gio_guess hgio
            exact ⟨total _ this, fun _ => this, fun h _ => hnu _ h⟩
          · split
            · refine ⟨⟨hfeed.1, ?_⟩, fun h => by simp_all, fun h _ => hnu _ h⟩
              intro t ht
              rcases hfeed.2 t ht with h | h | h <;> rw [h] <;> decide
            · exact ⟨total _ ⟨ct, rfl, hne⟩, fun _ => ⟨ct, rfl, hne⟩, fun h _ => hnu _ h⟩

theorem sniff_result_nonempty_witness :
    (some "text/plain" : Option String) ≠ some "" ∧ (none : Option String) ≠ some "" ∧
    dispatches_to_scan (some "text/plain") "text/plain" = false ∧
    (∃ t, sniff false (some "text/plain") "text/plain" [0x00, 0x01] none = Outcome.ret t ∧
      t ≠ "") ∧
    dispatches_to_unknown none = true ∧ ([] : List Nat).length ≤ 6 ∧
    (∃ t, sniff false none "" [] none = Outcome.ret t ∧ t ≠ "") :=
  ⟨by decide, by decide, by decide,
    (sniff_result_nonempty false (some "text/plain") "text/plain" [0x00, 0x01] none
      (by decide) (by decide)).2.1 (by decide),
    by decide, by decide,
    (sniff_result_nonempty false none "" [] none (by decide) (by decide)).2.2
      (by decide) (by decide)⟩

end SoupContentSniffer
